import Mathlib

/-!
Shallow embedding of the locality-idb core: the schema-to-topology builder
(`src/client.ts`), the validation pipeline (`src/validators.ts`), the column
model (`src/core.ts`) and the query/command builders (`src/query.ts`).
The host engine (IndexedDB) is modelled as an explicit object-store state
with the standard add/put/delete/clear/get/count semantics and
transaction rollback on abort.  JS objects are association lists from
string keys to values, JS numbers are modelled as integers, and the random
`uuidV4` / clock `getTimestamp` pair is modelled as an injective fresh-value
supply threaded through as a counter.
-/

namespace LocalityIdb

/-- JS runtime values as they occur in stored records: numbers (modelled as
integers), strings, booleans and `undefined`. -/
inductive Value where
  | vInt  : Int → Value
  | vStr  : String → Value
  | vBool : Bool → Value
  | undef : Value
deriving DecidableEq, Repr

/-- A JS object: association list from field names to values, in property
order.  A key can be present with value `undef` (explicit `undefined`),
which JS distinguishes from the key being absent. -/
abbrev RecordV := List (String × Value)

/-- Value of a field, `none` when the key is absent. -/
def getField (r : RecordV) (k : String) : Option Value :=
  (r.find? (fun p => p.1 == k)).map Prod.snd

/-- Reading a field the JS way: an absent key reads as `undefined`. -/
def getFieldD (r : RecordV) (k : String) : Value :=
  (getField r k).getD (.undef)

/-- Does the object have the key (the JS `in` operator)? -/
def hasField (r : RecordV) (k : String) : Bool :=
  r.any (fun p => p.1 == k)

/-- JS property assignment `r[k] = v`: overwrite in place, or append. -/
def setField : RecordV → String → Value → RecordV
  | [], k, v => [(k, v)]
  | (k1, v1) :: rest, k, v =>
      if k1 == k then (k, v) :: rest else (k1, v1) :: setField rest k v

/-- JS object spread: `{...a, ...b}` keeps the keys of `a` in order (with
values of `b` where `b` also has the key) followed by the keys only `b`
has, in the order of `b`. -/
def mergeRecords (a b : RecordV) : RecordV :=
  (a.map (fun p => (p.1, (getField b p.1).getD p.2))) ++
    b.filter (fun p => !(hasField a p.1))

/-- Column type tags (the subset of the source `TypeName` union exercised
here; aliases with identical checks, e.g. `number`/`float` and
`string`/`text`, are collapsed to one tag each). -/
inductive TypeName where
  | int | float | text | bool | uuid | timestamp | email | custom
  | charN (n : Nat) | varcharN (n : Nat)
deriving DecidableEq, Repr

/-- Hexadecimal digit. -/
def isHexChar (c : Char) : Bool :=
  c.isDigit || (Char.ofNat 97 ≤ c && c ≤ Char.ofNat 102) ||
    (Char.ofNat 65 ≤ c && c ≤ Char.ofNat 70)

/-- RFC4122 shape check `isUUID` (8-4-4-4-12 hex groups), modelling the
`nhb-toolbox` check used by `src/utils.ts`. -/
def uuidShape (s : String) : Bool :=
  match s.splitOn "-" with
  | [a, b, c, d, e] =>
      a.length == 8 && b.length == 4 && c.length == 4 && d.length == 4 &&
      e.length == 12 && (a ++ b ++ c ++ d ++ e).all isHexChar
  | _ => false

/-- Consume exactly `n` decimal digits. -/
def chompDigits : Nat → List Char → Option (List Char)
  | 0, cs => some cs
  | n + 1, c :: cs => if c.isDigit then chompDigits n cs else none
  | _ + 1, [] => none

/-- Consume one expected character. -/
def chompChar (ch : Char) : List Char → Option (List Char)
  | c :: cs => if c == ch then some cs else none
  | [] => none

/-- Consume one or more decimal digits. -/
def chompDigits1 : List Char → Option (List Char)
  | c :: cs => if c.isDigit then some (cs.dropWhile Char.isDigit) else none
  | [] => none

/-- Timezone part of the `isTimestamp` regex: `Z` or `[+-]\d\d:\d\d`. -/
def chompZone : List Char → Option (List Char)
  | c :: cs =>
      if c == 'Z' then some cs
      else if c == '+' || c == '-' then
        (chompDigits 2 cs).bind (chompChar ':') |>.bind (chompDigits 2)
      else none
  | [] => none

/-- ISO-8601 shape check `isTimestamp` from `src/utils.ts`:
`\d{4}-\d{2}-\d{2}T\d{2}:\d{2}:\d{2}(\.\d+)?(Z|[+-]\d{2}:\d{2})`. -/
def timestampShape (s : String) : Bool :=
  let afterDate :=
    (chompDigits 4 s.data).bind (chompChar '-') |>.bind (chompDigits 2)
      |>.bind (chompChar '-') |>.bind (chompDigits 2) |>.bind (chompChar 'T')
  let afterTime :=
    afterDate.bind (chompDigits 2) |>.bind (chompChar ':')
      |>.bind (chompDigits 2) |>.bind (chompChar ':') |>.bind (chompDigits 2)
  match afterTime with
  | none => false
  | some rest =>
      let rest2 :=
        match rest with
        | '.' :: cs => chompDigits1 cs
        | _ => some rest
      match rest2.bind chompZone with
      | some [] => true
      | _ => false

/-- Minimal shape model of the `nhb-toolbox` email check. -/
def emailShape (s : String) : Bool :=
  s.data.any (fun c => c == '@') && s.data.any (fun c => c == '.') && s.length ≥ 5

/-- Column definition: the symbol-keyed markers of the source `Column`
class (`src/core.ts`, part_011).  `onUpdate` mirrors the `OnUpdate`
symbol set by `Column.onUpdate`. -/
structure Column where
  type : TypeName
  isPrimaryKey : Bool := false
  isAutoInc : Bool := false
  isOptional : Bool := false
  isIndexed : Bool := false
  isUnique : Bool := false
  defaultValue : Option Value := none
  validator : Option (Value → Option String) := none
  onUpdate : Option (Value → Value) := none

/-- Ordered column map of a table (the source `ColumnDefinition`). -/
abbrev ColumnDef := List (String × Column)

/-- Printable form of a value, standing in for `JSON.stringify`. -/
def jsonShow : Value → String
  | .vInt n => toString n
  | .vStr s => "\"" ++ s ++ "\""
  | .vBool b => if b then "true" else "false"
  | .undef => "undefined"

/-- Validate a value against a column type tag (`validateColumnType` in
`src/validators.ts`): `none` when valid, an error message otherwise. -/
def validateColumnType (t : TypeName) (v : Value) : Option String :=
  let sv := jsonShow v
  match t with
  | .int =>
      match v with
      | .vInt _ => none
      | _ => some (sv ++ " is not an integer")
  | .float =>
      match v with
      | .vInt _ => none
      | _ => some (sv ++ " is not a number")
  | .text =>
      match v with
      | .vStr _ => none
      | _ => some (sv ++ " is not a string")
  | .bool =>
      match v with
      | .vBool _ => none
      | _ => some (sv ++ " is not a boolean")
  | .uuid =>
      match v with
      | .vStr s => if uuidShape s then none else some (sv ++ " is not a UUID string")
      | _ => some (sv ++ " is not a UUID string")
  | .timestamp =>
      match v with
      | .vStr s =>
          if timestampShape s then none else some (sv ++ " is not a timestamp string")
      | _ => some (sv ++ " is not a timestamp string")
  | .email =>
      match v with
      | .vStr s =>
          if emailShape s then none else some (sv ++ " is not a valid email address")
      | _ => some (sv ++ " is not a valid email address")
  | .custom => none
  | .charN n =>
      match v with
      | .vStr s =>
          if s.length == n then none
          else some (sv ++ " does not satisfy the constraint: char length " ++ toString n)
      | _ => some (sv ++ " is not a char string")
  | .varcharN n =>
      match v with
      | .vStr s =>
          if s.length ≤ n then none
          else some (sv ++ " does not satisfy the constraint: varchar length " ++ toString n)
      | _ => some (sv ++ " is not a varchar string")

/-- Error taxonomy of the validation pipeline: the `RangeError` and
`TypeError` throw sites of `validateAndPrepareData`. -/
inductive PrepError where
  | unknownField (field table : String)
  | requiredMissing (field table : String)
  | undefinedRequired (field table : String)
  | invalidValue (field table msg : String)
deriving DecidableEq, Repr

/-- JS truthiness of the `errorMsg` variable (`string | null | undefined`):
only a non-empty string is truthy (the `if (errorMsg)` in the source). -/
def truthyMsg : Option String → Bool
  | some s => s != ""
  | none => false

/-- Fresh UUID from the modelled supply (`uuidV4()` in `src/utils.ts`). -/
def genUuid (gen : Nat) : String := "uuid-" ++ toString gen

/-- Fresh ISO timestamp from the modelled supply (`getTimestamp()`). -/
def genTimestamp (gen : Nat) : String := "ts-" ++ toString gen

/-- Steps 2-4 of the pipeline after the auto-generation block of
`validateAndPrepareData`: missing-field handling, undefined handling and
value validation for one column. -/
def checkColumnValue (tableName : String) (keyPath : Option String) (forUpdate : Bool)
    (prepared : RecordV) (fieldName : String) (column : Column)
    (fieldNotPresent : Bool) : Except PrepError RecordV :=
  if fieldNotPresent then
    if forUpdate then .ok prepared
    else if !column.isOptional && !(some fieldName == keyPath) then
      .error (.requiredMissing fieldName tableName)
    else .ok prepared
  else
    match getField prepared fieldName with
    | none => .ok prepared
    | some v =>
      if v == .undef then
        if !column.isOptional && !(some fieldName == keyPath) then
          .error (.undefinedRequired fieldName tableName)
        else .ok prepared
      else
        let shouldSkip := !forUpdate && some fieldName == keyPath && column.isAutoInc
        if shouldSkip then .ok prepared
        else
          let errorMsg :=
            match column.validator with
            | some f => f v
            | none => validateColumnType column.type v
          if truthyMsg errorMsg then
            .error (.invalidValue fieldName tableName (errorMsg.getD ""))
          else .ok prepared

/-- Processing of one declared column by `validateAndPrepareData`
(`src/validators.ts`): auto-generation of uuid/timestamp values on insert,
default application, then the checks of `checkColumnValue`.  The state is
the record under preparation together with the fresh-value counter. -/
def processColumn (tableName : String) (keyPath : Option String) (forUpdate : Bool)
    (st : RecordV × Nat) (fieldName : String) (column : Column) :
    Except PrepError (RecordV × Nat) :=
  let prepared := st.1
  let gen := st.2
  let fieldNotPresent := !(hasField prepared fieldName)
  if !forUpdate && fieldNotPresent then
    if column.type == .uuid && column.defaultValue.isNone then
      .ok (setField prepared fieldName (.vStr (genUuid gen)), gen + 1)
    else if column.type == .timestamp && column.defaultValue.isNone then
      .ok (setField prepared fieldName (.vStr (genTimestamp gen)), gen + 1)
    else
      match column.defaultValue with
      | some d =>
          (checkColumnValue tableName keyPath forUpdate
            (setField prepared fieldName d) fieldName column false).map (fun r => (r, gen))
      | none =>
          (checkColumnValue tableName keyPath forUpdate prepared fieldName column
            true).map (fun r => (r, gen))
  else
    (checkColumnValue tableName keyPath forUpdate prepared fieldName column
      fieldNotPresent).map (fun r => (r, gen))

/-- Validation and preparation pipeline (`validateAndPrepareData` in
`src/validators.ts`): reject unknown fields, then process each declared
column in order.  Errors model the synchronous throws of the source. -/
def validateAndPrepareData (data : RecordV) (columns : Option ColumnDef)
    (keyPath : Option String) (tableName : String) (forUpdate : Bool) (gen : Nat) :
    Except PrepError (RecordV × Nat) :=
  match columns with
  | none => .ok (data, gen)
  | some cols =>
    match data.find? (fun p => !(cols.any (fun c => c.1 == p.1))) with
    | some p => .error (.unknownField p.1 tableName)
    | none =>
      cols.foldlM (fun st c => processColumn tableName keyPath forUpdate st c.1 c.2)
        (data, gen)

/-- Secondary-index descriptor of a store (`IndexConfig` in the source). -/
structure IndexConfig where
  name : String
  keyPath : String
  unique : Bool
deriving DecidableEq, Repr

/-- Collection descriptor derived from the schema (`StoreConfig`). -/
structure StoreConfig where
  name : String
  keyPath : String
  autoIncrement : Bool
  indexes : List IndexConfig
deriving DecidableEq, Repr

/-- The two `RangeError` throw sites of `Locality.#buildStoresConfig` for a
bad primary-key count. -/
inductive SchemaError where
  | zeroPK (table : String)
  | multiPK (table : String) (count : Nat) (names : List String)
deriving DecidableEq, Repr

/-- Table named by a schema error. -/
def SchemaError.table : SchemaError → String
  | .zeroPK t => t
  | .multiPK t _ _ => t

/-- Primary-key count reported by a schema error. -/
def SchemaError.count : SchemaError → Nat
  | .zeroPK _ => 0
  | .multiPK _ n _ => n

/-- Error message of a schema error, following the source templates
(quotation of individual column names elided). -/
def SchemaError.message : SchemaError → String
  | .zeroPK t =>
      "Table " ++ t ++ " must have exactly one primary key. Found 0 primary keys."
  | .multiPK t n names =>
      "Table " ++ t ++ " can only have one primary key. Found " ++ toString n ++
        " primary keys: " ++ String.intercalate ", " names ++ "."

/-- A schema: ordered map from table names to their column definitions. -/
abbrev Schema := List (String × ColumnDef)

/-- Store descriptor of one table (`#buildStoresConfig` body): exactly one
primary-key column is required; non-primary-key indexed columns (unique
columns are indexed) become secondary indexes carrying their own
uniqueness flag. -/
def buildStoreConfig (tableName : String) (cols : ColumnDef) :
    Except SchemaError StoreConfig :=
  let pkEntries := cols.filter (fun p => p.2.isPrimaryKey)
  match pkEntries with
  | [] => .error (.zeroPK tableName)
  | [(pkName, pk)] =>
      .ok
        { name := tableName
          keyPath := pkName
          autoIncrement := pk.isAutoInc
          indexes :=
            (cols.filter (fun p => !p.2.isPrimaryKey && p.2.isIndexed)).map
              (fun p => ⟨p.1, p.1, p.2.isUnique⟩) }
  | l => .error (.multiPK tableName l.length (l.map (fun p => p.1)))

/-- Topology builder (`Locality.#buildStoresConfig`): the tables are
mapped in order and the first offending table aborts the construction. -/
def buildStoresConfig : Schema → Except SchemaError (List StoreConfig)
  | [] => .ok []
  | (t, cols) :: rest =>
      match buildStoreConfig t cols with
      | .error e => .error e
      | .ok cfg =>
          match buildStoresConfig rest with
          | .error e => .error e
          | .ok cfgs => .ok (cfg :: cfgs)

/-- Host-engine effects performed by the `Locality` constructor. -/
inductive InitEvent where
  | openedStores (stores : List StoreConfig)
deriving DecidableEq, Repr

/-- The `Locality` constructor: `#buildStoresConfig` runs synchronously
first and a thrown `SchemaError` prevents `openDBWithStores` from ever
being called; with a valid schema the host engine is opened with the
derived store configurations. -/
def constructLocality (s : Schema) :
    Except SchemaError (List StoreConfig × List InitEvent) :=
  match buildStoresConfig s with
  | .error e => .error e
  | .ok stores => .ok (stores, [InitEvent.openedStores stores])

/-- Number of primary-key columns of a table. -/
def pkCount (cols : ColumnDef) : Nat :=
  (cols.filter (fun p => p.2.isPrimaryKey)).length

/-- IndexedDB comparison on values, restricted to this value model:
numbers sort before strings; booleans and `undefined` (not valid keys)
are ranked below both. -/
def valueLe (a b : Value) : Bool :=
  match a, b with
  | .vInt x, .vInt y => x ≤ y
  | .vStr x, .vStr y => x ≤ y
  | .vBool x, .vBool y => !x || y
  | .undef, .undef => true
  | .undef, _ => true
  | _, .undef => false
  | .vBool _, _ => true
  | _, .vBool _ => false
  | .vInt _, .vStr _ => true
  | .vStr _, .vInt _ => false

/-- Strict version of `valueLe` (total order complement). -/
def valueLt (a b : Value) : Bool := !(valueLe b a)

/-- Valid IndexedDB keys in this value model: numbers and strings. -/
def isValidKey : Value → Bool
  | .vInt _ => true
  | .vStr _ => true
  | _ => false

/-- Key value or key range of an indexed request (`IDBKeyRange`). -/
inductive KeyQuery where
  | only (v : Value)
  | bound (lo hi : Value) (loOpen hiOpen : Bool)
deriving DecidableEq, Repr

/-- Does a key fall inside a key query? -/
def matchesQuery (q : KeyQuery) (v : Value) : Bool :=
  match q with
  | .only w => v == w
  | .bound lo hi lo1 hi1 =>
      (if lo1 then valueLt lo v else valueLe lo v) &&
      (if hi1 then valueLt v hi else valueLe v hi)

/-- One object store of the host engine: key path, key generator state,
secondary indexes and the stored records (kept in insertion order; ordered
reads sort on demand). -/
structure ObjectStore where
  keyPath : String
  autoIncrement : Bool := false
  autoIncNext : Int := 1
  indexes : List IndexConfig := []
  rows : List RecordV := []
deriving DecidableEq, Repr

/-- Key of a record under a key path, `none` when absent, `undefined` or
not a valid key type. -/
def recordKey (kp : String) (r : RecordV) : Option Value :=
  match getField r kp with
  | some v => if isValidKey v then some v else none
  | none => none

/-- Request failures of the host engine. -/
inductive OpError where
  | dataError
  | constraintKey (key : Value)
  | constraintUnique (index : String)
deriving DecidableEq, Repr

/-- Key-generator bump: IndexedDB advances the generator past any
explicitly supplied numeric key. -/
def bumpAutoInc (st : ObjectStore) (k : Value) : ObjectStore :=
  match k with
  | .vInt n =>
      if st.autoIncrement && n ≥ st.autoIncNext then { st with autoIncNext := n + 1 }
      else st
  | _ => st

/-- Resolve the key of a record being written: use the in-line key when
present, otherwise generate one when the store has a key generator
(injecting it into the record), otherwise fail with a `DataError`. -/
def resolveKey (st : ObjectStore) (r : RecordV) :
    Except OpError (Value × RecordV × ObjectStore) :=
  match getField r st.keyPath with
  | some v =>
      if v == .undef then
        if st.autoIncrement then
          .ok (.vInt st.autoIncNext, setField r st.keyPath (.vInt st.autoIncNext),
            { st with autoIncNext := st.autoIncNext + 1 })
        else .error .dataError
      else if isValidKey v then .ok (v, r, bumpAutoInc st v)
      else .error .dataError
  | none =>
      if st.autoIncrement then
        .ok (.vInt st.autoIncNext, setField r st.keyPath (.vInt st.autoIncNext),
          { st with autoIncNext := st.autoIncNext + 1 })
      else .error .dataError

/-- First unique index violated by writing `r` at key `k` (rows stored at
`k` itself do not conflict: `put` replaces them). -/
def uniqueViolation (st : ObjectStore) (k : Value) (r : RecordV) : Option IndexConfig :=
  st.indexes.find? (fun ix =>
    ix.unique &&
    (match getField r ix.keyPath with
     | some v =>
         isValidKey v &&
         st.rows.any (fun row =>
           !(recordKey st.keyPath row == some k) && getField row ix.keyPath == some v)
     | none => false))

/-- Host-engine `add`, also reporting the key used: fails when the key
already exists or a unique index is violated, otherwise appends the
record. -/
def storeAddK (st : ObjectStore) (r : RecordV) : Except OpError (Value × ObjectStore) := do
  let (k, r1, st1) ← resolveKey st r
  if st1.rows.any (fun row => recordKey st1.keyPath row == some k) then
    .error (.constraintKey k)
  else
    match uniqueViolation st1 k r1 with
    | some ix => .error (.constraintUnique ix.name)
    | none => .ok (k, { st1 with rows := st1.rows ++ [r1] })

/-- Host-engine `add`. -/
def storeAdd (st : ObjectStore) (r : RecordV) : Except OpError ObjectStore :=
  (storeAddK st r).map Prod.snd

/-- Host-engine `put`: like `add` but replaces the record at an existing
key in place. -/
def storePut (st : ObjectStore) (r : RecordV) : Except OpError ObjectStore := do
  let (k, r1, st1) ← resolveKey st r
  match uniqueViolation st1 k r1 with
  | some ix => .error (.constraintUnique ix.name)
  | none =>
      if st1.rows.any (fun row => recordKey st1.keyPath row == some k) then
        let newRows := st1.rows.map (fun row =>
          if recordKey st1.keyPath row == some k then r1 else row)
        .ok { st1 with rows := newRows }
      else .ok { st1 with rows := st1.rows ++ [r1] }

/-- Host-engine `delete` by key. -/
def storeDelete (st : ObjectStore) (k : Value) : ObjectStore :=
  { st with rows := st.rows.filter (fun row => !(recordKey st.keyPath row == some k)) }

/-- Host-engine `clear`. -/
def storeClear (st : ObjectStore) : ObjectStore := { st with rows := [] }

/-- Host-engine `get` by primary key. -/
def storeGet (st : ObjectStore) (k : Value) : Option RecordV :=
  st.rows.find? (fun row => recordKey st.keyPath row == some k)

/-- One request issued inside a transaction. -/
inductive StoreOp where
  | addOp (r : RecordV)
  | putOp (r : RecordV)
  | deleteOp (k : Value)
  | clearOp

/-- Apply one request to a store. -/
def applyOp (st : ObjectStore) : StoreOp → Except OpError ObjectStore
  | .addOp r => storeAdd st r
  | .putOp r => storePut st r
  | .deleteOp k => .ok (storeDelete st k)
  | .clearOp => .ok (storeClear st)

/-- Apply the requests of a transaction in order; the first failing request
stops the run. -/
def applyOps (st : ObjectStore) : List StoreOp → Except OpError ObjectStore
  | [] => .ok st
  | op :: ops =>
      match applyOp st op with
      | .error e => .error e
      | .ok st1 => applyOps st1 ops

/-- Transaction semantics of the host engine: either every request
succeeds and the scope auto-commits, or the first failure aborts the
scope and rolls back every write issued in it. -/
def runTx (st : ObjectStore) (ops : List StoreOp) : ObjectStore × Option OpError :=
  match applyOps st ops with
  | .ok st1 => (st1, none)
  | .error e => (st, some e)

/-- Insertion of an element into a sorted list (model of the in-memory
sorting performed by `sortAnArray` and of index-order traversal). -/
def insertBy {α : Type} (le : α → α → Bool) (x : α) : List α → List α
  | [] => [x]
  | y :: ys => if le x y then x :: y :: ys else y :: insertBy le x ys

/-- Insertion sort on a boolean comparison. -/
def sortBy {α : Type} (le : α → α → Bool) : List α → List α
  | [] => []
  | x :: xs => insertBy le x (sortBy le xs)

/-- Sort direction of `orderBy` / `sortByIndex`. -/
inductive SortDirection where
  | asc | desc
deriving DecidableEq, Repr

/-- Direction-aware comparison on values. -/
def dirLe (dir : SortDirection) (a b : Value) : Bool :=
  match dir with
  | .asc => valueLe a b
  | .desc => valueLe b a

/-- Row comparison used by the in-memory sort on a field key. -/
def rowFieldLe (dir : SortDirection) (k : String) (r1 r2 : RecordV) : Bool :=
  dirLe dir (getFieldD r1 k) (getFieldD r2 k)

/-- Index-order comparison of rows: by the indexed field, ties by primary
key (how an IndexedDB index stores duplicate keys). -/
def idxLexLe (pk kp : String) (r1 r2 : RecordV) : Bool :=
  valueLt (getFieldD r1 kp) (getFieldD r2 kp) ||
    (getFieldD r1 kp == getFieldD r2 kp &&
      valueLe (getFieldD r1 pk) (getFieldD r2 pk))

/-- Host-engine `getAll()` on a store: all records in primary-key order. -/
def storeGetAll (st : ObjectStore) : List RecordV :=
  sortBy (fun r1 r2 => valueLe (getFieldD r1 st.keyPath) (getFieldD r2 st.keyPath)) st.rows

/-- Host-engine `getAll(query)` on an index key path: the records carrying
a matching valid key at that path, in index order. -/
def indexGetAll (st : ObjectStore) (kp : String) (q : KeyQuery) : List RecordV :=
  sortBy (idxLexLe st.keyPath kp)
    (st.rows.filter (fun r =>
      match getField r kp with
      | some v => isValidKey v && matchesQuery q v
      | none => false))

/-- Index cursor traversal order (no range): every record carrying a valid
key at the index path, in index order. -/
def cursorEntries (st : ObjectStore) (kp : String) : List RecordV :=
  sortBy (idxLexLe st.keyPath kp)
    (st.rows.filter (fun r =>
      match getField r kp with
      | some v => isValidKey v
      | none => false))

/-- Accumulated plan of a `SelectQuery` builder (its private fields). -/
structure SelectPlan where
  whereCond : Option (RecordV → Bool) := none
  whereIndexName : Option String := none
  whereIndexQuery : Option KeyQuery := none
  orderByKey : Option String := none
  orderByDir : SortDirection := .asc
  limitCount : Option Nat := none
  useIndexCursor : Bool := false
  selected : Option (List (String × Bool)) := none

/-- One modifier call on a `SelectQuery` builder. -/
inductive BuilderStep where
  | wherePred (p : RecordV → Bool)
  | whereIdx (name : String) (q : Option KeyQuery)
  | orderBy (key : String) (dir : SortDirection)
  | sortByIndex (key : String) (dir : SortDirection)
  | limit (n : Nat)
  | selectCols (cols : List (String × Bool))

/-- Effect of one modifier call on the plan, mirroring the builder methods
of `SelectQuery`: the two `where` overloads each clear the other filter
kind, `sortByIndex` turns the cursor flag on, `orderBy` does not turn it
off. -/
def applyStep (plan : SelectPlan) : BuilderStep → SelectPlan
  | .wherePred p =>
      { plan with whereCond := some p, whereIndexName := none, whereIndexQuery := none }
  | .whereIdx nm q =>
      if nm != "" && q.isSome then
        { plan with whereIndexName := some nm, whereIndexQuery := q, whereCond := none }
      else plan
  | .orderBy k dir => { plan with orderByKey := some k, orderByDir := dir }
  | .sortByIndex k dir =>
      { plan with orderByKey := some k, orderByDir := dir, useIndexCursor := true }
  | .limit n => { plan with limitCount := some n }
  | .selectCols cols => { plan with selected := some cols }

/-- Plan reached from a fresh builder by a sequence of modifier calls. -/
def buildPlan (steps : List BuilderStep) : SelectPlan :=
  steps.foldl applyStep {}

/-- Selection flag attached to a field name, if any. -/
def lookupSel (s : List (String × Bool)) (k : String) : Option Bool :=
  (s.find? (fun p => p.1 == k)).map Prod.snd

/-- Projection of one row (`SelectQuery.#projectRow`): any `true` entry
switches to include-only semantics, otherwise every field is kept except
those explicitly `false`; an absent or empty selection keeps the row. -/
def projectRow (sel : Option (List (String × Bool))) (row : RecordV) : RecordV :=
  match sel with
  | none => row
  | some s =>
      if s.isEmpty then row
      else if s.any (fun p => p.2) then
        (s.filter (fun p => p.2)).map (fun p => (p.1, getFieldD row p.1))
      else
        row.filter (fun p => !(lookupSel s p.1 == some false))

/-- Predicate filter application, when one is set. -/
def applyPredFilter (c : Option (RecordV → Bool)) (rows : List RecordV) : List RecordV :=
  match c with
  | some p => rows.filter p
  | none => rows

/-- In-memory sort step of the pipeline (`SelectQuery.#sort`): only an
orderBy key that is a non-empty string (JS truthiness) triggers it. -/
def sortStep (plan : SelectPlan) (rows : List RecordV) : List RecordV :=
  match plan.orderByKey with
  | some k => if k == "" then rows else sortBy (rowFieldLe plan.orderByDir k) rows
  | none => rows

/-- Limit application: a limit of `0` is falsy in JS and is ignored. -/
def applyLimit (lim : Option Nat) (rows : List RecordV) : List RecordV :=
  match lim with
  | some n => if n == 0 then rows else rows.take n
  | none => rows

/-- Pipeline applied to fetched results (`SelectQuery.#applyPipeline`):
in-memory sort, then limit, then projection. -/
def applyPipeline (plan : SelectPlan) (rows : List RecordV) : List RecordV :=
  (applyLimit plan.limitCount (sortStep plan rows)).map (projectRow plan.selected)

/-- Error raised when an index-qualified filter names neither the primary
key nor a declared index (`RangeError` in `#buildIndexedStore`). -/
inductive QueryError where
  | indexNotFound (index table : String)
deriving DecidableEq, Repr

/-- Key check of `SelectQuery.#isPrimaryKey`. -/
def isPrimaryKeyName (st : ObjectStore) (nm : String) : Bool :=
  nm != "" && st.keyPath == nm

/-- Key check of `SelectQuery.#isIndexKey` (`store.indexNames.contains`). -/
def isIndexKeyName (st : ObjectStore) (nm : String) : Bool :=
  nm != "" && st.indexes.any (fun ix => ix.name == nm)

/-- Request target chosen by `#buildIndexedStore`: the store itself for a
primary-key filter, a named index otherwise. -/
inductive IndexedSource where
  | pkSource
  | idxSource (keyPath : String)
deriving DecidableEq, Repr

/-- The `#buildIndexedStore` check: primary key wins, then a declared
index, otherwise the terminal call rejects. -/
def buildIndexedStore (st : ObjectStore) (nm : String) (table : String) :
    Except QueryError IndexedSource :=
  if !isPrimaryKeyName st nm && !isIndexKeyName st nm then
    .error (.indexNotFound nm table)
  else if isPrimaryKeyName st nm then .ok .pkSource
  else .ok (.idxSource (((st.indexes.find? (fun ix => ix.name == nm)).map
    (fun ix => ix.keyPath)).getD nm))

/-- Host-engine `getAll(query)` on the chosen source. -/
def sourceGetAll (st : ObjectStore) (src : IndexedSource) (q : KeyQuery) : List RecordV :=
  match src with
  | .pkSource =>
      sortBy (fun r1 r2 => valueLe (getFieldD r1 st.keyPath) (getFieldD r2 st.keyPath))
        (st.rows.filter (fun r =>
          match recordKey st.keyPath r with
          | some k => matchesQuery q k
          | none => false))
  | .idxSource kp => indexGetAll st kp q

/-- Host-engine `count(query)` on the chosen source. -/
def sourceCount (st : ObjectStore) (src : IndexedSource) (q : KeyQuery) : Nat :=
  (sourceGetAll st src q).length

/-- Is an index-qualified `where` filter active (JS truthiness of
`#whereIndexName` plus a defined `#whereIndexQuery`)? -/
def hasIndexFilter (plan : SelectPlan) : Bool :=
  (match plan.whereIndexName with
   | some nm => nm != ""
   | none => false) && plan.whereIndexQuery.isSome

/-- Condition under which `findAll` uses the optimized index cursor: the
cursor flag is on, the orderBy key is a non-empty string contained in the
store's index names, and no predicate `where` condition is set. -/
def usesIdxCursor (plan : SelectPlan) (st : ObjectStore) : Bool :=
  plan.useIndexCursor &&
    (match plan.orderByKey with
     | some k => k != "" && st.indexes.any (fun ix => ix.name == k)
     | none => false) &&
    plan.whereCond.isNone

/-- Access path taken by `findAll` for a given plan and store. -/
inductive QueryPath where
  | indexedGet | cursorScan | fullScan
deriving DecidableEq, Repr

/-- Path decision of `findAll`: the index-qualified filter branch wins,
then the cursor branch, then the full scan. -/
def findAllPath (plan : SelectPlan) (st : ObjectStore) : QueryPath :=
  if hasIndexFilter plan then .indexedGet
  else if usesIdxCursor plan st then .cursorScan
  else .fullScan

/-- Rows produced by the cursor branch before limit and projection. -/
def cursorTraversal (plan : SelectPlan) (st : ObjectStore) : List RecordV :=
  let k := plan.orderByKey.getD ""
  let kp := (((st.indexes.find? (fun ix => ix.name == k)).map
    (fun ix => ix.keyPath)).getD k)
  match plan.orderByDir with
  | .asc => cursorEntries st kp
  | .desc => (cursorEntries st kp).reverse

/-- Terminal `findAll` of `SelectQuery`: an index-qualified filter issues a
direct key/range request and pipes the result through the pipeline; else
an eligible index cursor traverses in order with limit and projection
only; else a full scan is filtered in memory and piped through the
pipeline. -/
def findAll (table : String) (plan : SelectPlan) (st : ObjectStore) :
    Except QueryError (List RecordV) :=
  match findAllPath plan st with
  | .indexedGet =>
      match buildIndexedStore st (plan.whereIndexName.getD "") table with
      | .error e => .error e
      | .ok src =>
          .ok (applyPipeline plan
            (sourceGetAll st src (plan.whereIndexQuery.getD (.only .undef))))
  | .cursorScan =>
      .ok ((applyLimit plan.limitCount (cursorTraversal plan st)).map
        (projectRow plan.selected))
  | .fullScan =>
      .ok (applyPipeline plan (applyPredFilter plan.whereCond (storeGetAll st)))

/-- Terminal `findFirst` of `SelectQuery`. -/
def findFirst (table : String) (plan : SelectPlan) (st : ObjectStore) :
    Except QueryError (Option RecordV) :=
  if hasIndexFilter plan then
    match buildIndexedStore st (plan.whereIndexName.getD "") table with
    | .error e => .error e
    | .ok src =>
        .ok (applyPipeline plan
          (sourceGetAll st src (plan.whereIndexQuery.getD (.only .undef)))).head?
  else
    .ok ((applyPipeline plan (applyPredFilter plan.whereCond (storeGetAll st))).head?)

/-- Terminal `count` of `SelectQuery`: native count on the indexed source
when an index filter is set, in-memory count of a full scan under a
predicate filter, native store count otherwise. -/
def selectCount (table : String) (plan : SelectPlan) (st : ObjectStore) :
    Except QueryError Nat :=
  if hasIndexFilter plan then
    match buildIndexedStore st (plan.whereIndexName.getD "") table with
    | .error e => .error e
    | .ok src => .ok (sourceCount st src (plan.whereIndexQuery.getD (.only .undef)))
  else
    match plan.whereCond with
    | some p => .ok ((storeGetAll st).filter p).length
    | none => .ok st.rows.length

/-- Terminal `findByPk` of `SelectQuery`: a direct `get`, `null` when the
record is missing or fails an active predicate filter, the projected
record otherwise. -/
def findByPk (plan : SelectPlan) (st : ObjectStore) (k : Value) : Option RecordV :=
  match storeGet st k with
  | none => none
  | some r =>
      match plan.whereCond with
      | some p => if p r then some (projectRow plan.selected r) else none
      | none => some (projectRow plan.selected r)

/-- Failure modes of a command builder run. -/
inductive RunError where
  | prep (e : PrepError)
  | op (e : OpError)
  | emptyUpdate
  | tableMissing (table : String)
deriving DecidableEq, Repr

/-- Outcome of a command run: the settled promise value together with the
store state after commit or rollback and the fresh-value counter. -/
structure RunState (α : Type) where
  result : Except RunError α
  store : ObjectStore
  gen : Nat

/-- Prepare records one after another (the synchronous loop of
`InsertQuery.run`), returning the prefix prepared before the first
validation throw, if any. -/
def prepAllWithPrefix (columns : Option ColumnDef) (keyPath : Option String)
    (table : String) (gen : Nat) :
    List RecordV → List RecordV × Nat × Option PrepError
  | [] => ([], gen, none)
  | d :: ds =>
      match validateAndPrepareData d columns keyPath table false gen with
      | .error e => ([], gen, some e)
      | .ok (r, gen1) =>
          match prepAllWithPrefix columns keyPath table gen1 ds with
          | (rs, gen2, err) => (r :: rs, gen2, err)

/-- Sequential `add` of each prepared record, collecting the generated
keys; the first failure stops the run. -/
def addAll (st : ObjectStore) : List RecordV → Except OpError (ObjectStore × List Value)
  | [] => .ok (st, [])
  | r :: rs =>
      match storeAddK st r with
      | .error e => .error e
      | .ok (k, st1) =>
          match addAll st1 rs with
          | .error e => .error e
          | .ok (st2, ks) => .ok (st2, k :: ks)

/-- Terminal `run` of `InsertQuery` outside an explicit transaction
context: every record is prepared and added inside one readwrite
transaction; a failing add rejects the run and aborts the transaction
(rolling back the whole batch); on success each record is re-read by its
generated key.  A synchronous prepare throw rejects the run while the adds
already issued are left to the transaction. -/
def insertRun (table : String) (columns : Option ColumnDef) (keyPath : Option String)
    (dataToInsert : List RecordV) (st : ObjectStore) (gen : Nat) :
    RunState (List RecordV) :=
  if dataToInsert.isEmpty then ⟨.ok [], st, gen⟩
  else
    match prepAllWithPrefix columns keyPath table gen dataToInsert with
    | (ps, gen1, some e) =>
        let txOut := runTx st (ps.map StoreOp.addOp)
        ⟨.error (.prep e), txOut.1, gen1⟩
    | (ps, gen1, none) =>
        match addAll st ps with
        | .error e => ⟨.error (.op e), st, gen1⟩
        | .ok (st1, ks) => ⟨.ok (ks.filterMap (storeGet st1)), st1, gen1⟩

/-- Terminal `run` of `UpdateQuery`: read all rows, filter by the
predicate if set, merge each with the patch, re-prepare in update mode and
`put` it back; resolves with the number of rows written.  A failing put
or a prepare throw rejects the run and the transaction aborts. -/
def updateRun (table : String) (columns : Option ColumnDef) (keyPath : Option String)
    (dataToUpdate : RecordV) (whereCond : Option (RecordV → Bool))
    (st : ObjectStore) (gen : Nat) : RunState Nat :=
  if dataToUpdate.isEmpty then ⟨.error .emptyUpdate, st, gen⟩
  else
    let rows := applyPredFilter whereCond (storeGetAll st)
    let preps := rows.map (fun row =>
      validateAndPrepareData (mergeRecords row dataToUpdate) columns keyPath table true gen)
    let puts := preps.filterMap (fun r =>
      match r with
      | .ok p => some (StoreOp.putOp p.1)
      | .error _ => none)
    let txOut := runTx st puts
    match preps.findSome? (fun r =>
      match r with
      | .error e => some e
      | .ok _ => none) with
    | some e => ⟨.error (.prep e), txOut.1, gen⟩
    | none =>
        match txOut.2 with
        | some oe => ⟨.error (.op oe), txOut.1, gen⟩
        | none => ⟨.ok puts.length, txOut.1, gen⟩

/-- Import modes of `Locality.import`. -/
inductive ImportMode where
  | replace | merge | upsert
deriving DecidableEq, Repr

/-- The databases of the model: named object stores. -/
abbrev Database := List (String × ObjectStore)

/-- Store of a table. -/
def lookupStore (db : Database) (t : String) : Option ObjectStore :=
  (db.find? (fun p => p.1 == t)).map Prod.snd

/-- Replace the store of a table. -/
def updateStore (db : Database) (t : String) (st : ObjectStore) : Database :=
  db.map (fun p => if p.1 == t then (t, st) else p)

/-- Column definitions of a table in a schema. -/
def lookupColumns (s : Schema) (t : String) : Option ColumnDef :=
  (s.find? (fun p => p.1 == t)).map Prod.snd

/-- Write requests issued for the rows of one imported table: each row is
prepared in insert mode, `upsert` issues `put`, other modes issue `add`; a
prepare throw stops the import (the shared transaction is aborted). -/
def importRowsOps (columns : Option ColumnDef) (keyPath : Option String)
    (table : String) (mode : ImportMode) (gen : Nat) :
    List RecordV → List StoreOp × Nat × Option PrepError
  | [] => ([], gen, none)
  | r :: rs =>
      match validateAndPrepareData r columns keyPath table false gen with
      | .error e => ([], gen, some e)
      | .ok (p, gen1) =>
          match importRowsOps columns keyPath table mode gen1 rs with
          | (ops, gen2, err) =>
              ((if mode == ImportMode.upsert then StoreOp.putOp p else StoreOp.addOp p)
                :: ops, gen2, err)

/-- Per-table request blocks of one import call: `replace` clears the
store first; a prepare throw anywhere aborts the whole import. -/
def buildImportBlocks (s : Schema) (keyPaths : String → Option String)
    (mode : ImportMode) (dataMap : List (String × List RecordV)) (gen : Nat) :
    List String → List (String × List StoreOp) × Nat × Option PrepError
  | [] => ([], gen, none)
  | t :: ts =>
      let rows := ((dataMap.find? (fun p => p.1 == t)).map Prod.snd).getD []
      match importRowsOps (lookupColumns s t) (keyPaths t) t mode gen rows with
      | (_, gen1, some e) => ([], gen1, some e)
      | (rowOps, gen1, none) =>
          let ops := (if mode == ImportMode.replace then [StoreOp.clearOp] else []) ++ rowOps
          match buildImportBlocks s keyPaths mode dataMap gen1 ts with
          | (rest, gen2, err) => ((t, ops) :: rest, gen2, err)

/-- Application of the per-table request blocks inside the one shared
transaction: the first failing request aborts everything. -/
def importTables (db : Database) : List (String × List StoreOp) → Except RunError Database
  | [] => .ok db
  | (t, ops) :: rest =>
      match lookupStore db t with
      | none => .error (.tableMissing t)
      | some st =>
          match applyOps st ops with
          | .error e => .error (.op e)
          | .ok st1 => importTables (updateStore db t st1) rest

/-- The `Locality.import` entry point: validate the targeted tables
against the schema before opening the transaction, then run every table's
writes inside one shared transaction; any failure rolls back every
table's import. -/
def importRun (s : Schema) (keyPaths : String → Option String)
    (dataMap : List (String × List RecordV)) (mode : ImportMode)
    (tables : Option (List String)) (db : Database) (gen : Nat) :
    Except RunError Unit × Database × Nat :=
  let tablesToImport := tables.getD (dataMap.map (fun p => p.1))
  match tablesToImport.find? (fun t => !(s.any (fun p => p.1 == t))) with
  | some t => (.error (.tableMissing t), db, gen)
  | none =>
      if tablesToImport.isEmpty then (.ok (), db, gen)
      else
        match buildImportBlocks s keyPaths mode dataMap gen tablesToImport with
        | (_, gen1, some e) => (.error (.prep e), db, gen1)
        | (blocks, gen1, none) =>
            match importTables db blocks with
            | .error e => (.error e, db, gen1)
            | .ok db1 => (.ok (), db1, gen1)

/-- Is the run outcome a success? -/
def isOkE {ε α : Type} : Except ε α → Bool
  | .ok _ => true
  | .error _ => false

/-- Modelled from the spec wording of the sort-priority sentence, for
comparison with the code: an index-backed sort is executed via cursor
traversal when (a) no predicate-based filter is active and (b) the
requested key is a declared index or the primary key. -/
def specCursorEligible (plan : SelectPlan) (st : ObjectStore) : Bool :=
  plan.whereCond.isNone &&
    (isIndexKeyName st (plan.orderByKey.getD "") ||
      isPrimaryKeyName st (plan.orderByKey.getD ""))

/-- Pairwise distinctness of a list. -/
def allDistinct {α : Type} [BEq α] : List α → Bool
  | [] => true
  | x :: xs => !(xs.contains x) && allDistinct xs

/-- Keys of a row list under a key path. -/
def rowsKeys (kp : String) (rows : List RecordV) : List (Option Value) :=
  rows.map (recordKey kp)

/-- First row carrying a given key. -/
def findByKey (kp : String) (rows : List RecordV) (k : Option Value) : Option RecordV :=
  rows.find? (fun row => recordKey kp row == k)

/-- A store is well keyed when every record carries a valid in-line key
and keys are pairwise distinct. -/
def wellKeyedStore (st : ObjectStore) : Bool :=
  st.rows.all (fun r => (recordKey st.keyPath r).isSome) &&
    allDistinct (rowsKeys st.keyPath st.rows)

/-- Does every store of the database satisfy `wellKeyedStore`? -/
def wellKeyedDB (db : Database) : Bool :=
  db.all (fun p => wellKeyedStore p.2)

/-- Does a snapshot row provide a value for every auto-generated column
(uuid or timestamp without an explicit default) of the table?  When it
does, preparing the row consumes no fresh values. -/
def rowProvidesAutoFields (cols : ColumnDef) (r : RecordV) : Bool :=
  cols.all (fun c =>
    !((c.2.type == TypeName.uuid || c.2.type == TypeName.timestamp) &&
        c.2.defaultValue.isNone) ||
      hasField r c.1)

/-- Does every row of every targeted table of a snapshot provide its
auto-generated fields? -/
def snapshotProvidesAutoFields (s : Schema) (dataMap : List (String × List RecordV))
    (tablesToImport : List String) : Bool :=
  tablesToImport.all (fun t =>
    (((dataMap.find? (fun p => p.1 == t)).map Prod.snd).getD []).all
      (fun r => rowProvidesAutoFields ((lookupColumns s t).getD []) r))

/-- Record written by a write request, if any. -/
def opRecord : StoreOp → Option RecordV
  | .addOp r => some r
  | .putOp r => some r
  | .deleteOp _ => none
  | .clearOp => none

/-- Is every record written by the requests of a block keyed in-line under
the key path of its store? -/
def blocksWellKeyed (db : Database) (blocks : List (String × List StoreOp)) : Bool :=
  blocks.all (fun b =>
    match lookupStore db b.1 with
    | some st => b.2.all (fun op =>
        match opRecord op with
        | some r => (recordKey st.keyPath r).isSome
        | none => true)
    | none => false)

/-- Pure effect of one `put` on a row list (key assumed in-line): replace
the rows carrying the same key in place, or append. -/
def putRowPure (kp : String) (rows : List RecordV) (r : RecordV) : List RecordV :=
  if rows.any (fun row => recordKey kp row == recordKey kp r) then
    rows.map (fun row => if recordKey kp row == recordKey kp r then r else row)
  else rows ++ [r]

/-- Pure effect of a sequence of `put`s on a row list. -/
def putFoldRows (kp : String) (rows : List RecordV) : List RecordV → List RecordV
  | [] => rows
  | r :: rs => putFoldRows kp (putRowPure kp rows r) rs

/-- Key-generator state after a sequence of explicit keys passed through
`bumpAutoInc`. -/
def bumpFold (auto : Bool) (n : Int) : List (Option Value) → Int
  | [] => n
  | some (.vInt m) :: ks => bumpFold auto (if auto && m ≥ n then m + 1 else n) ks
  | _ :: ks => bumpFold auto n ks

/-- Is the request a `put`? -/
def isPutOp : StoreOp → Bool
  | .putOp _ => true
  | _ => false

end LocalityIdb

open LocalityIdb

theorem buildStoreConfig_error_inv (t : String) (cols : ColumnDef) (e : SchemaError)
    (h : buildStoreConfig t cols = .error e) :
    e.table = t ∧ e.count = pkCount cols ∧ pkCount cols ≠ 1 := by
  unfold buildStoreConfig at h
  rcases hf : cols.filter (fun p => p.2.isPrimaryKey) with _ | ⟨x, _ | ⟨y, ys⟩⟩ <;>
      rw [hf] at h <;> simp only [Except.error.injEq] at h
  · subst h
    simp [pkCount, hf, SchemaError.table, SchemaError.count]
  · exact absurd h (by simp)
  · subst h
    refine ⟨rfl, ?_, ?_⟩ <;> simp [pkCount, hf, SchemaError.count]

theorem buildStoreConfig_ok_inv (t : String) (cols : ColumnDef) (cfg : StoreConfig)
    (h : buildStoreConfig t cols = .ok cfg) : pkCount cols = 1 := by
  unfold buildStoreConfig at h
  rcases hf : cols.filter (fun p => p.2.isPrimaryKey) with _ | ⟨x, _ | ⟨y, ys⟩⟩ <;>
    rw [hf] at h <;> simp_all [pkCount, hf]

theorem buildStoreConfig_ok_of_one (t : String) (cols : ColumnDef)
    (h : pkCount cols = 1) : ∃ cfg, buildStoreConfig t cols = .ok cfg := by
  unfold buildStoreConfig
  rcases hf : cols.filter (fun p => p.2.isPrimaryKey) with _ | ⟨⟨pn, pc⟩, _ | ⟨y, ys⟩⟩ <;>
    simp_all [pkCount]

theorem buildStoresConfig_error_of_mem_bad (s : Schema) (t : String) (cols : ColumnDef)
    (hmem : (t, cols) ∈ s) (hbad : pkCount cols ≠ 1) :
    ∃ e : SchemaError, buildStoresConfig s = .error e ∧
      (∃ cols2, (e.table, cols2) ∈ s ∧ pkCount cols2 = e.count) ∧ e.count ≠ 1 := by
  induction s with
  | nil => cases hmem
  | cons hd rest ih =>
    obtain ⟨t0, c0⟩ := hd
    rcases hcfg : buildStoreConfig t0 c0 with e0 | cfg0
    · obtain ⟨he1, he2, he3⟩ := buildStoreConfig_error_inv t0 c0 e0 hcfg
      exact ⟨e0, by simp [buildStoresConfig, hcfg],
        ⟨c0, by rw [he1]; exact List.mem_cons_self _ _, he2.symm⟩, by omega⟩
    · have hone : pkCount c0 = 1 := buildStoreConfig_ok_inv t0 c0 cfg0 hcfg
      have hmem2 : (t, cols) ∈ rest := by
        rcases List.mem_cons.mp hmem with heq | hm
        · exfalso; apply hbad; rw [show cols = c0 from congrArg Prod.snd heq]; exact hone
        · exact hm
      obtain ⟨e, he, ⟨cols2, hc2, hcnt⟩, hne1⟩ := ih hmem2
      exact ⟨e, by simp [buildStoresConfig, hcfg, he],
        ⟨cols2, List.mem_cons_of_mem _ hc2, hcnt⟩, hne1⟩

theorem buildStoresConfig_ok_of_all (s : Schema)
    (h : ∀ t cols, (t, cols) ∈ s → pkCount cols = 1) :
    ∃ cfgs, buildStoresConfig s = .ok cfgs := by
  induction s with
  | nil => exact ⟨[], rfl⟩
  | cons hd rest ih =>
    obtain ⟨t0, c0⟩ := hd
    obtain ⟨cfg0, hcfg⟩ :=
      buildStoreConfig_ok_of_one t0 c0 (h t0 c0 (List.mem_cons_self _ _))
    obtain ⟨cfgs, hcfgs⟩ := ih (fun t cols hm => h t cols (List.mem_cons_of_mem _ hm))
    exact ⟨cfg0 :: cfgs, by simp [buildStoresConfig, hcfg, hcfgs]⟩

/-- C2: for every schema, a table whose column set has zero or at least two
primary-key columns makes client construction fail with a `SchemaError`
whose table is an offending table and whose reported count is that table's
primary-key count; the error is raised by `#buildStoresConfig` before
`openDBWithStores` runs, so no host-engine store is opened (the error
outcome of `constructLocality` carries no open event).  When every table
has exactly one primary-key column, construction proceeds and opens the
derived stores. -/
theorem c2_single_primary_key_invariant (s : Schema) :
    ((∃ t cols, (t, cols) ∈ s ∧ pkCount cols ≠ 1) →
      ∃ e : SchemaError, constructLocality s = .error e ∧
        (∃ cols2, (e.table, cols2) ∈ s ∧ pkCount cols2 = e.count) ∧ e.count ≠ 1) ∧
    ((∀ t cols, (t, cols) ∈ s → pkCount cols = 1) →
      ∃ stores, constructLocality s = .ok (stores, [InitEvent.openedStores stores])) := by
  constructor
  · rintro ⟨t, cols, hmem, hbad⟩
    obtain ⟨e, he, hw, hne⟩ := buildStoresConfig_error_of_mem_bad s t cols hmem hbad
    exact ⟨e, by simp [constructLocality, he], hw, hne⟩
  · intro h
    obtain ⟨cfgs, hcfgs⟩ := buildStoresConfig_ok_of_all s h
    exact ⟨cfgs, by simp [constructLocality, hcfgs]⟩

/-- Witness for C2 at concrete schemas: a table with two primary keys
fails construction; the one-primary-key schema constructs and opens its
stores. -/
theorem c2_single_primary_key_invariant_witness :
    (∃ e : SchemaError,
      constructLocality
          [("users", [("id", { type := .int, isPrimaryKey := true }),
                      ("uid", { type := .uuid, isPrimaryKey := true })])] = .error e ∧
        (∃ cols2, (e.table, cols2) ∈
          [("users", [("id", ({ type := .int, isPrimaryKey := true } : Column)),
                      ("uid", { type := .uuid, isPrimaryKey := true })])] ∧
          pkCount cols2 = e.count) ∧ e.count ≠ 1) ∧
    (∃ stores,
      constructLocality [("users", [("id", { type := .int, isPrimaryKey := true })])] =
        .ok (stores, [InitEvent.openedStores stores])) :=
  ⟨(c2_single_primary_key_invariant _).1
      ⟨"users", _, List.mem_cons_self _ _, by decide⟩,
    (c2_single_primary_key_invariant _).2 (by
      rintro t cols h
      rw [List.mem_singleton] at h
      rw [show cols = [("id", ({ type := .int, isPrimaryKey := true } : Column))] from
        congrArg Prod.snd h]
      decide)⟩

theorem mem_insertBy {α : Type} (le : α → α → Bool) (x a : α) (l : List α) :
    a ∈ insertBy le x l ↔ a = x ∨ a ∈ l := by
  induction l with
  | nil => simp [insertBy]
  | cons y ys ih =>
    by_cases hle : le x y = true
    · simp [insertBy, hle, List.mem_cons]
    · simp only [insertBy, hle, Bool.false_eq_true, if_false, List.mem_cons, ih]
      tauto

theorem mem_sortBy {α : Type} (le : α → α → Bool) (a : α) (l : List α) :
    a ∈ sortBy le l ↔ a ∈ l := by
  induction l with
  | nil => simp [sortBy]
  | cons y ys ih => simp [sortBy, mem_insertBy, ih, List.mem_cons]

theorem mem_storeGetAll (st : ObjectStore) (r : RecordV) :
    r ∈ storeGetAll st ↔ r ∈ st.rows := mem_sortBy _ r st.rows

/-- C9: an update whose predicate matches no stored row resolves with a
count of `0` and leaves every record of the table unchanged (no `put` is
issued and the transaction commits empty). -/
theorem c9_update_no_match (table : String) (columns : Option ColumnDef)
    (keyPath : Option String) (patch : RecordV) (p : RecordV → Bool)
    (st : ObjectStore) (gen : Nat)
    (hpatch : patch.isEmpty = false)
    (hnone : ∀ r ∈ st.rows, p r = false) :
    (updateRun table columns keyPath patch (some p) st gen).result = .ok 0 ∧
    (updateRun table columns keyPath patch (some p) st gen).store = st := by
  have hfilter : (storeGetAll st).filter p = [] := by
    rw [List.filter_eq_nil_iff]
    intro r hr
    simp [hnone r ((mem_storeGetAll st r).mp hr)]
  unfold updateRun
  simp [hpatch, applyPredFilter, hfilter, runTx, applyOps]

/-- Witness for C9: updating `users` where `id = 99` on a store holding
only the row `id = 1` resolves `0` and leaves the store untouched. -/
theorem c9_update_no_match_witness :
    (updateRun "users"
        (some [("id", { type := .int, isPrimaryKey := true }), ("email", { type := .text })])
        (some "id") [("email", .vStr "c")]
        (some (fun r => getFieldD r "id" == .vInt 99))
        { keyPath := "id", rows := [[("id", .vInt 1), ("email", .vStr "a")]] } 0).result
      = .ok 0 ∧
    (updateRun "users"
        (some [("id", { type := .int, isPrimaryKey := true }), ("email", { type := .text })])
        (some "id") [("email", .vStr "c")]
        (some (fun r => getFieldD r "id" == .vInt 99))
        { keyPath := "id", rows := [[("id", .vInt 1), ("email", .vStr "a")]] } 0).store
      = { keyPath := "id", rows := [[("id", .vInt 1), ("email", .vStr "a")]] } :=
  c9_update_no_match "users" _ (some "id") _ _ _ 0 rfl (by decide)

/-- C10: `findByPk` under a predicate filter resolves `null` whenever the
record stored at the key exists but fails the predicate, and resolves the
projected record when it passes (or when no predicate is set). -/
theorem c10_findByPk_predicate (plan : SelectPlan) (st : ObjectStore) (k : Value)
    (r : RecordV) (hget : storeGet st k = some r) :
    findByPk plan st k =
      match plan.whereCond with
      | some p => if p r then some (projectRow plan.selected r) else none
      | none => some (projectRow plan.selected r) := by
  unfold findByPk
  rw [hget]

/-- Witness for C10: the stored row `id = 1` fails the predicate, so
`findByPk` resolves `null`; without a predicate it resolves the projected
record. -/
theorem c10_findByPk_predicate_witness :
    (findByPk
        { whereCond := some (fun r => getFieldD r "email" == .vStr "z") }
        { keyPath := "id", rows := [[("id", .vInt 1), ("email", .vStr "a")]] }
        (.vInt 1) =
      if (fun r => getFieldD r "email" == Value.vStr "z")
          [("id", Value.vInt 1), ("email", Value.vStr "a")] then
        some (projectRow none [("id", .vInt 1), ("email", .vStr "a")])
      else none) ∧
    (findByPk { selected := some [("email", true)] }
        { keyPath := "id", rows := [[("id", .vInt 1), ("email", .vStr "a")]] }
        (.vInt 1) =
      some (projectRow (some [("email", true)]) [("id", .vInt 1), ("email", .vStr "a")])) :=
  ⟨c10_findByPk_predicate _ _ _ _ rfl, c10_findByPk_predicate _ _ _ _ rfl⟩

/-- C3 (code bug evidence): the schema declares an update hook that
increments `version` (the `OnUpdate` marker of `Column.onUpdate`); after
`update.set {version := 5}` on the row `{id := 1, version := 1}`, the
claim requires the hook to run on the current value `1` and override the
caller's `5` with `2`, but the code writes the caller's `5` unchanged —
no code path of `UpdateQuery.run` or `validateAndPrepareData` ever
invokes the hook. -/
theorem c3_onUpdate_hook_not_applied :
    (updateRun "users"
        (some [("id", { type := .int, isPrimaryKey := true }),
               ("version",
                 { type := .int,
                   onUpdate := some (fun v =>
                     match v with
                     | .vInt n => .vInt (n + 1)
                     | _ => .vInt 0) })])
        (some "id") [("version", .vInt 5)] none
        { keyPath := "id", rows := [[("id", .vInt 1), ("version", .vInt 1)]] } 0).result
      = .ok 1 ∧
    (updateRun "users"
        (some [("id", { type := .int, isPrimaryKey := true }),
               ("version",
                 { type := .int,
                   onUpdate := some (fun v =>
                     match v with
                     | .vInt n => .vInt (n + 1)
                     | _ => .vInt 0) })])
        (some "id") [("version", .vInt 5)] none
        { keyPath := "id", rows := [[("id", .vInt 1), ("version", .vInt 1)]] } 0).store.rows
      = [[("id", .vInt 1), ("version", .vInt 5)]] :=
  ⟨rfl, rfl⟩

/-- C1: when every record of an insert batch prepares successfully but
some `add` fails (for instance a uniqueness constraint enforced by the
host engine), the whole `run()` rejects and the transaction aborts; no
record of the batch is committed, and reading the table afterwards
returns exactly the record set from before the call. -/
theorem c1_insert_batch_atomicity (table : String) (columns : Option ColumnDef)
    (keyPath : Option String) (datas : List RecordV) (st : ObjectStore) (gen : Nat)
    (ps : List RecordV) (gen1 : Nat)
    (hprep : prepAllWithPrefix columns keyPath table gen datas = (ps, gen1, none))
    (hfail : isOkE (addAll st ps) = false) :
    isOkE (insertRun table columns keyPath datas st gen).result = false ∧
    (insertRun table columns keyPath datas st gen).store = st ∧
    storeGetAll (insertRun table columns keyPath datas st gen).store = storeGetAll st := by
  cases datas with
  | nil =>
    exfalso
    simp only [prepAllWithPrefix, Prod.mk.injEq] at hprep
    rw [← hprep.1] at hfail
    simp [addAll, isOkE] at hfail
  | cons d ds =>
    unfold insertRun
    rw [hprep]
    simp only [List.isEmpty_cons, Bool.false_eq_true, if_false]
    cases haa : addAll st ps with
    | error e => exact ⟨rfl, rfl, rfl⟩
    | ok out => rw [haa] at hfail; simp [isOkE] at hfail

/-- Witness for C1: a two-record batch on a `users` store with a unique
`email` index; the second `add` violates uniqueness, the run rejects and
the store keeps exactly its prior single row. -/
theorem c1_insert_batch_atomicity_witness :
    isOkE (insertRun "users"
        (some [("id", { type := .int, isPrimaryKey := true }),
               ("email", { type := .text, isIndexed := true, isUnique := true })])
        (some "id")
        [[("id", .vInt 2), ("email", .vStr "b")], [("id", .vInt 3), ("email", .vStr "a")]]
        { keyPath := "id", indexes := [⟨"email", "email", true⟩],
          rows := [[("id", .vInt 1), ("email", .vStr "a")]] } 0).result = false ∧
    (insertRun "users"
        (some [("id", { type := .int, isPrimaryKey := true }),
               ("email", { type := .text, isIndexed := true, isUnique := true })])
        (some "id")
        [[("id", .vInt 2), ("email", .vStr "b")], [("id", .vInt 3), ("email", .vStr "a")]]
        { keyPath := "id", indexes := [⟨"email", "email", true⟩],
          rows := [[("id", .vInt 1), ("email", .vStr "a")]] } 0).store =
      { keyPath := "id", indexes := [⟨"email", "email", true⟩],
        rows := [[("id", .vInt 1), ("email", .vStr "a")]] } ∧
    storeGetAll (insertRun "users"
        (some [("id", { type := .int, isPrimaryKey := true }),
               ("email", { type := .text, isIndexed := true, isUnique := true })])
        (some "id")
        [[("id", .vInt 2), ("email", .vStr "b")], [("id", .vInt 3), ("email", .vStr "a")]]
        { keyPath := "id", indexes := [⟨"email", "email", true⟩],
          rows := [[("id", .vInt 1), ("email", .vStr "a")]] } 0).store =
      storeGetAll { keyPath := "id", indexes := [⟨"email", "email", true⟩],
                    rows := [[("id", .vInt 1), ("email", .vStr "a")]] } :=
  c1_insert_batch_atomicity "users" _ (some "id") _ _ 0
    [[("id", .vInt 2), ("email", .vStr "b")], [("id", .vInt 3), ("email", .vStr "a")]] 0
    rfl rfl

theorem hasField_eq_isSome (r : RecordV) (k : String) :
    hasField r k = (getField r k).isSome := by
  induction r with
  | nil => rfl
  | cons p rest ih =>
    by_cases h : p.1 == k <;> simp [hasField, getField, List.find?, List.any, h] <;>
      simpa [hasField, getField] using ih

/-- C6: for a declared column absent from the raw record, on insert: a
uuid or timestamp column with no explicit default receives a fresh
synthesized value and is not validated further (the equation holds for
every attached validator); else a declared default is applied and then
checked like a present value; else an optional or primary-key column is
left absent; otherwise preparation fails with the required-field error
naming the field and the table. -/
theorem c6_missing_column_insert (tableName : String) (keyPath : Option String)
    (prepared : RecordV) (gen : Nat) (fieldName : String) (column : Column)
    (habsent : hasField prepared fieldName = false) :
    ((column.type = .uuid ∧ column.defaultValue = none) →
      processColumn tableName keyPath false (prepared, gen) fieldName column =
        .ok (setField prepared fieldName (.vStr (genUuid gen)), gen + 1)) ∧
    ((column.type = .timestamp ∧ column.defaultValue = none) →
      processColumn tableName keyPath false (prepared, gen) fieldName column =
        .ok (setField prepared fieldName (.vStr (genTimestamp gen)), gen + 1)) ∧
    (∀ d, column.defaultValue = some d →
      processColumn tableName keyPath false (prepared, gen) fieldName column =
        (checkColumnValue tableName keyPath false (setField prepared fieldName d)
          fieldName column false).map (fun r => (r, gen))) ∧
    ((column.defaultValue = none ∧ column.type ≠ .uuid ∧ column.type ≠ .timestamp) →
      (((column.isOptional = true ∨ some fieldName = keyPath) →
          processColumn tableName keyPath false (prepared, gen) fieldName column =
            .ok (prepared, gen)) ∧
        (column.isOptional = false → some fieldName ≠ keyPath →
          processColumn tableName keyPath false (prepared, gen) fieldName column =
            .error (.requiredMissing fieldName tableName)))) := by
  refine ⟨?_, ?_, ?_, ?_⟩
  · rintro ⟨ht, hd⟩
    simp [processColumn, habsent, ht, hd]
  · rintro ⟨ht, hd⟩
    simp [processColumn, habsent, ht, hd]
  · intro d hd
    have : (column.type == TypeName.uuid && column.defaultValue.isNone) = false := by
      simp [hd]
    have h2 : (column.type == TypeName.timestamp && column.defaultValue.isNone) = false := by
      simp [hd]
    simp [processColumn, habsent, this, h2, hd]
  · rintro ⟨hd, hu, ht⟩
    have hbu : (column.type == TypeName.uuid) = false := by
      simp [hu]
    have hbt : (column.type == TypeName.timestamp) = false := by
      simp [ht]
    constructor
    · intro hopt
      rcases hopt with hopt | hkp
      · simp [processColumn, habsent, hbu, hbt, hd, checkColumnValue, hopt, Except.map]
      · have : (some fieldName == keyPath) = true := beq_iff_eq.mpr hkp
        simp [processColumn, habsent, hbu, hbt, hd, checkColumnValue, this, Except.map]
    · intro hopt hkp
      have : (some fieldName == keyPath) = false := by
        simp [hkp]
      simp [processColumn, habsent, hbu, hbt, hd, checkColumnValue, hopt, this, Except.map]

/-- Witness for C6 at concrete inputs: a uuid column with no default and a
rejecting validator attached still receives a fresh value without
validation; a required text column with no default fails with the
required-field error. -/
theorem c6_missing_column_insert_witness :
    (processColumn "users" (some "id") false ([], 0) "uid"
        { type := .uuid, validator := some (fun _ => some "always invalid") } =
      .ok (setField [] "uid" (.vStr (genUuid 0)), 0 + 1)) ∧
    (processColumn "users" (some "id") false ([], 0) "name" { type := .text } =
      .error (.requiredMissing "name" "users")) :=
  ⟨(c6_missing_column_insert "users" (some "id") [] 0 "uid"
      { type := .uuid, validator := some (fun _ => some "always invalid") } rfl).1
        ⟨rfl, rfl⟩,
    ((c6_missing_column_insert "users" (some "id") [] 0 "name"
      { type := .text } rfl).2.2.2 ⟨rfl, by decide, by decide⟩).2 rfl (by decide)⟩

/-- C7 counterexample: a custom validator that returns the empty string
returns a non-null message, yet preparation succeeds — the code tests the
message for JS truthiness (`if (errorMsg)`), and the empty string is
falsy, so a non-null empty message does not cause failure as the claim
requires. -/
theorem c7_counterexample_empty_message :
    validateAndPrepareData [("id", .vInt 1), ("name", .vStr "x")]
        (some [("id", { type := .int, isPrimaryKey := true }),
               ("name", { type := .text, validator := some (fun _ => some "") })])
        (some "id") "users" false 0
      = .ok ([("id", .vInt 1), ("name", .vStr "x")], 0) ∧
    truthyMsg (some "") = false :=
  ⟨rfl, rfl⟩

/-- C7 (amended): for a field present with a defined value, validation is
skipped exactly when the call is an insert, the field is the primary key
and the key is auto-increment; otherwise an attached custom validator
alone runs — a truthy (non-empty) message fails, a null, undefined or
empty-string return passes, and the built-in type check is not consulted —
and without a custom validator the built-in check of the column's type tag
decides. -/
theorem c7_value_validation (tableName : String) (keyPath : Option String)
    (forUpdate : Bool) (prepared : RecordV) (gen : Nat) (fieldName : String)
    (column : Column) (v : Value)
    (hpresent : getField prepared fieldName = some v) (hdef : v ≠ .undef) :
    processColumn tableName keyPath forUpdate (prepared, gen) fieldName column =
      (if !forUpdate && some fieldName == keyPath && column.isAutoInc then
        .ok (prepared, gen)
      else
        match column.validator with
        | some f =>
            if truthyMsg (f v) then
              .error (.invalidValue fieldName tableName ((f v).getD ""))
            else .ok (prepared, gen)
        | none =>
            if truthyMsg (validateColumnType column.type v) then
              .error (.invalidValue fieldName tableName
                ((validateColumnType column.type v).getD ""))
            else .ok (prepared, gen)) := by
  have hhas : hasField prepared fieldName = true := by
    rw [hasField_eq_isSome, hpresent]; rfl
  have hvu : (v == Value.undef) = false := by
    simp [hdef]
  unfold processColumn checkColumnValue
  simp only [hhas, Bool.not_true, Bool.and_false, Bool.false_eq_true, if_false, hpresent,
    hvu]
  by_cases hskip : (!forUpdate && some fieldName == keyPath && column.isAutoInc) = true
  · simp [hskip, Except.map]
  · simp only [Bool.not_eq_true] at hskip
    simp only [hskip, Bool.false_eq_true, if_false]
    cases column.validator with
    | some f =>
        by_cases ht : truthyMsg (f v) = true <;> simp [ht, Except.map]
    | none =>
        by_cases ht : truthyMsg (validateColumnType column.type v) = true <;>
          simp [ht, Except.map]

/-- Witness for C7: with a passing custom validator attached, an integer
value stored in a text column is accepted — the custom validator fully
replaces the built-in check. -/
theorem c7_value_validation_witness :
    processColumn "users" (some "id") false ([("name", Value.vInt 7)], 0) "name"
        { type := .text, validator := some (fun _ => none) } =
      .ok ([("name", Value.vInt 7)], 0) :=
  (c7_value_validation "users" (some "id") false [("name", Value.vInt 7)] 0 "name"
    { type := .text, validator := some (fun _ => none) } (Value.vInt 7) rfl
    (by decide)).trans rfl

theorem buildPlan_index_inv (steps : List BuilderStep) :
    ∀ nm, (buildPlan steps).whereIndexName = some nm →
      nm ≠ "" ∧ (buildPlan steps).whereCond = none ∧
        (buildPlan steps).whereIndexQuery.isSome = true := by
  suffices H : ∀ (p : SelectPlan),
      (∀ nm2, p.whereIndexName = some nm2 →
        nm2 ≠ "" ∧ p.whereCond = none ∧ p.whereIndexQuery.isSome = true) →
      ∀ nm2, (steps.foldl applyStep p).whereIndexName = some nm2 →
        nm2 ≠ "" ∧ (steps.foldl applyStep p).whereCond = none ∧
          (steps.foldl applyStep p).whereIndexQuery.isSome = true by
    intro nm h
    exact H {} (by intro nm2 h2; exact absurd h2 (by simp)) nm h
  induction steps with
  | nil => intro p hp; exact hp
  | cons s rest ih =>
    intro p hp
    simp only [List.foldl]
    apply ih
    cases s with
    | wherePred f =>
        intro nm2 h2
        exact absurd h2 (by simp [applyStep])
    | whereIdx nm3 q =>
        by_cases hc : (nm3 != "" && q.isSome) = true
        · intro nm2 h2
          simp only [applyStep, hc, if_true] at h2
          obtain ⟨h3, h4⟩ := (Bool.and_eq_true _ _).mp hc
          refine ⟨?_, ?_, ?_⟩
          · cases h2
            exact fun he => by simp [he] at h3
          · simp [applyStep, hc]
          · have hne3 : nm3 ≠ "" := by simpa using h3
            simp [applyStep, hc, hne3, h4]
        · simpa only [applyStep, hc, if_false] using hp
    | orderBy k dir => simpa only [applyStep] using hp
    | sortByIndex k dir => simpa only [applyStep] using hp
    | limit n => simpa only [applyStep] using hp
    | selectCols cols => simpa only [applyStep] using hp

/-- C4: for every builder-reachable select query carrying an
index-qualified filter, a name that is neither the primary key nor a
declared index makes `findAll`, `findFirst` and `count` reject with the
index-not-found error; a valid name issues a direct key/range request
against that key path (the terminals compute from `sourceGetAll` /
`sourceCount` on the chosen source).  A predicate filter can never also be
present on such a query — the `where` overloads clear each other, proved
here as `whereCond = none` — so the claim's in-memory predicate pass holds
vacuously on the fetched results. -/
theorem c4_index_filter_priority (steps : List BuilderStep) (st : ObjectStore)
    (table : String) (nm : String) (q : KeyQuery)
    (hn : (buildPlan steps).whereIndexName = some nm)
    (hq : (buildPlan steps).whereIndexQuery = some q) :
    (buildPlan steps).whereCond = none ∧
    (isPrimaryKeyName st nm = false → isIndexKeyName st nm = false →
      findAll table (buildPlan steps) st = .error (.indexNotFound nm table) ∧
      findFirst table (buildPlan steps) st = .error (.indexNotFound nm table) ∧
      selectCount table (buildPlan steps) st = .error (.indexNotFound nm table)) ∧
    (∀ src, buildIndexedStore st nm table = .ok src →
      findAll table (buildPlan steps) st =
        .ok (applyPipeline (buildPlan steps) (sourceGetAll st src q)) ∧
      selectCount table (buildPlan steps) st = .ok (sourceCount st src q)) := by
  obtain ⟨hne, hcnone, hqs⟩ := buildPlan_index_inv steps nm hn
  have hif : hasIndexFilter (buildPlan steps) = true := by
    unfold hasIndexFilter
    rw [hn, hq]
    simp [hne]
  have hpath : findAllPath (buildPlan steps) st = .indexedGet := by
    unfold findAllPath
    simp [hif]
  have hgd : (buildPlan steps).whereIndexName.getD "" = nm := by rw [hn]; rfl
  have hgq : (buildPlan steps).whereIndexQuery.getD (.only .undef) = q := by rw [hq]; rfl
  refine ⟨hcnone, ?_, ?_⟩
  · intro hpk hidx
    have hbis : buildIndexedStore st nm table = .error (.indexNotFound nm table) := by
      unfold buildIndexedStore
      simp [hpk, hidx]
    refine ⟨?_, ?_, ?_⟩
    · unfold findAll
      rw [hpath, hgd, hbis]
    · unfold findFirst
      rw [hif]
      simp only [if_true, hgd, hbis]
    · unfold selectCount
      rw [hif]
      simp only [if_true, hgd, hbis]
  · intro src hsrc
    constructor
    · unfold findAll
      rw [hpath, hgd, hsrc, hgq]
    · unfold selectCount
      rw [hif]
      simp only [if_true, hgd, hsrc, hgq]

/-- Witness for C4: the filter name `nope` is neither the primary key
`id` nor the declared index `email`, so the terminals reject with the
index-not-found error. -/
theorem c4_index_filter_priority_witness :
    findAll "users" (buildPlan [BuilderStep.whereIdx "nope" (some (.only (.vStr "a")))])
        { keyPath := "id", indexes := [⟨"email", "email", true⟩],
          rows := [[("id", .vInt 1), ("email", .vStr "a")]] } =
      .error (.indexNotFound "nope" "users") ∧
    selectCount "users"
        (buildPlan [BuilderStep.whereIdx "nope" (some (.only (.vStr "a")))])
        { keyPath := "id", indexes := [⟨"email", "email", true⟩],
          rows := [[("id", .vInt 1), ("email", .vStr "a")]] } =
      .error (.indexNotFound "nope" "users") :=
  ⟨((c4_index_filter_priority [BuilderStep.whereIdx "nope" (some (.only (.vStr "a")))]
      { keyPath := "id", indexes := [⟨"email", "email", true⟩],
        rows := [[("id", .vInt 1), ("email", .vStr "a")]] } "users" "nope"
      (.only (.vStr "a")) rfl rfl).2.1 rfl rfl).1,
    ((c4_index_filter_priority [BuilderStep.whereIdx "nope" (some (.only (.vStr "a")))]
      { keyPath := "id", indexes := [⟨"email", "email", true⟩],
        rows := [[("id", .vInt 1), ("email", .vStr "a")]] } "users" "nope"
      (.only (.vStr "a")) rfl rfl).2.1 rfl rfl).2.2⟩

theorem valueLe_refl (a : Value) : valueLe a a = true := by
  cases a <;> simp [valueLe]

theorem valueLe_total (a b : Value) : valueLe a b = true ∨ valueLe b a = true := by
  cases a <;> cases b <;>
      simp only [valueLe, decide_eq_true_eq, Bool.or_eq_true, Bool.not_eq_true'] <;>
    first
      | omega
      | exact le_total _ _
      | tauto
      | (rename_i x y; cases x <;> cases y <;> simp)

theorem valueLe_trans {a b c : Value} (h1 : valueLe a b = true)
    (h2 : valueLe b c = true) : valueLe a c = true := by
  cases a <;> cases b <;> cases c <;>
      simp only [valueLe, decide_eq_true_eq, Bool.or_eq_true, Bool.not_eq_true']
        at h1 h2 ⊢ <;>
    first
      | rfl
      | omega
      | exact le_trans h1 h2
      | (rcases h1 with h1 | h1 <;> rcases h2 with h2 | h2 <;> simp_all)
      | simp_all

theorem valueLe_antisymm {a b : Value} (h1 : valueLe a b = true)
    (h2 : valueLe b a = true) : a = b := by
  cases a <;> cases b <;>
      simp only [valueLe, decide_eq_true_eq, Bool.or_eq_true, Bool.not_eq_true',
        Value.vInt.injEq, Value.vStr.injEq, Value.vBool.injEq] at h1 h2 ⊢ <;>
    first
      | rfl
      | omega
      | exact le_antisymm h1 h2
      | (rcases h1 with h1 | h1 <;> rcases h2 with h2 | h2 <;> simp_all)
      | simp_all

theorem valueLe_of_valueLt {a b : Value} (h : valueLt a b = true) :
    valueLe a b = true := by
  unfold valueLt at h
  rcases valueLe_total a b with h2 | h2
  · exact h2
  · rw [h2] at h; cases h

theorem valueLt_trans {a b c : Value} (h1 : valueLt a b = true)
    (h2 : valueLt b c = true) : valueLt a c = true := by
  unfold valueLt at h1 h2 ⊢
  rcases hca : valueLe c a with _ | _
  · rfl
  · exfalso
    have hab : valueLe a b = true := by
      rcases valueLe_total a b with h | h
      · exact h
      · rw [h] at h1; cases h1
    have hcb : valueLe c b = true := valueLe_trans hca hab
    rw [hcb] at h2; cases h2

theorem valueLt_of_lt_of_eq {a b c : Value} (h1 : valueLt a b = true) (h2 : b = c) :
    valueLt a c = true := h2 ▸ h1

theorem idxLexLe_total (pk kp : String) (r1 r2 : RecordV) :
    idxLexLe pk kp r1 r2 = true ∨ idxLexLe pk kp r2 r1 = true := by
  unfold idxLexLe
  by_cases h12 : valueLe (getFieldD r1 kp) (getFieldD r2 kp) = true
  · by_cases h21 : valueLe (getFieldD r2 kp) (getFieldD r1 kp) = true
    · have heq : getFieldD r1 kp = getFieldD r2 kp := valueLe_antisymm h12 h21
      rcases valueLe_total (getFieldD r1 pk) (getFieldD r2 pk) with h | h
      · left; simp [heq, h]
      · right; simp [heq.symm, h]
    · left
      have hlt : valueLt (getFieldD r1 kp) (getFieldD r2 kp) = true := by
        unfold valueLt
        simp only [Bool.not_eq_true] at h21
        simp [h21]
      simp [hlt]
  · right
    have hlt : valueLt (getFieldD r2 kp) (getFieldD r1 kp) = true := by
      unfold valueLt
      simp only [Bool.not_eq_true] at h12
      simp [h12]
    simp [hlt]

theorem idxLexLe_trans {pk kp : String} {r1 r2 r3 : RecordV}
    (h1 : idxLexLe pk kp r1 r2 = true) (h2 : idxLexLe pk kp r2 r3 = true) :
    idxLexLe pk kp r1 r3 = true := by
  unfold idxLexLe at h1 h2 ⊢
  simp only [Bool.or_eq_true, Bool.and_eq_true, beq_iff_eq] at h1 h2 ⊢
  rcases h1 with h1 | ⟨h1e, h1k⟩ <;> rcases h2 with h2 | ⟨h2e, h2k⟩
  · exact Or.inl (valueLt_trans h1 h2)
  · exact Or.inl (valueLt_of_lt_of_eq h1 h2e)
  · exact Or.inl (h1e ▸ h2)
  · exact Or.inr ⟨h1e.trans h2e, valueLe_trans h1k h2k⟩

theorem idxLexLe_imp_le {pk kp : String} {r1 r2 : RecordV}
    (h : idxLexLe pk kp r1 r2 = true) :
    valueLe (getFieldD r1 kp) (getFieldD r2 kp) = true := by
  unfold idxLexLe at h
  simp only [Bool.or_eq_true, Bool.and_eq_true, beq_iff_eq] at h
  rcases h with h | ⟨he, _⟩
  · exact valueLe_of_valueLt h
  · rw [he]; exact valueLe_refl _

theorem rowFieldLe_total (dir : SortDirection) (k : String) (r1 r2 : RecordV) :
    rowFieldLe dir k r1 r2 = true ∨ rowFieldLe dir k r2 r1 = true := by
  unfold rowFieldLe dirLe
  cases dir
  · exact valueLe_total _ _
  · exact (valueLe_total _ _).symm

theorem rowFieldLe_trans {dir : SortDirection} {k : String} {r1 r2 r3 : RecordV}
    (h1 : rowFieldLe dir k r1 r2 = true) (h2 : rowFieldLe dir k r2 r3 = true) :
    rowFieldLe dir k r1 r3 = true := by
  unfold rowFieldLe dirLe at h1 h2 ⊢
  cases dir
  · exact valueLe_trans h1 h2
  · exact valueLe_trans h2 h1

theorem pairwise_insertBy {α : Type} (le : α → α → Bool)
    (htot : ∀ a b, le a b = true ∨ le b a = true)
    (htr : ∀ a b c, le a b = true → le b c = true → le a c = true)
    (x : α) (l : List α) (h : l.Pairwise (fun a b => le a b = true)) :
    (insertBy le x l).Pairwise (fun a b => le a b = true) := by
  induction l with
  | nil => simp [insertBy]
  | cons y ys ih =>
    rcases List.pairwise_cons.mp h with ⟨hy, hys⟩
    by_cases hle : le x y = true
    · unfold insertBy
      rw [if_pos hle]
      refine List.pairwise_cons.mpr ⟨?_, h⟩
      intro b hb
      rcases List.mem_cons.mp hb with rfl | hb2
      · exact hle
      · exact htr x y b hle (hy b hb2)
    · unfold insertBy
      rw [if_neg hle]
      refine List.pairwise_cons.mpr ⟨?_, ih hys⟩
      intro b hb
      rcases (mem_insertBy le x b ys).mp hb with heq | hb2
      · subst heq
        rcases htot b y with h2 | h2
        · exact absurd h2 hle
        · exact h2
      · exact hy b hb2

theorem pairwise_sortBy {α : Type} (le : α → α → Bool)
    (htot : ∀ a b, le a b = true ∨ le b a = true)
    (htr : ∀ a b c, le a b = true → le b c = true → le a c = true)
    (l : List α) : (sortBy le l).Pairwise (fun a b => le a b = true) := by
  induction l with
  | nil => exact List.Pairwise.nil
  | cons y ys ih => exact pairwise_insertBy le htot htr y (sortBy le ys) ih

theorem pairwise_applyLimit (lim : Option Nat) (rows : List RecordV)
    (R : RecordV → RecordV → Prop) (h : rows.Pairwise R) :
    (applyLimit lim rows).Pairwise R := by
  unfold applyLimit
  rcases lim with _ | n
  · exact h
  · by_cases hz : n == 0
    · simpa [hz] using h
    · simpa [hz] using h.sublist (List.take_sublist n rows)

/-- C5 counterexample: `sortByIndex` on the primary key.  The spec-worded
condition (`specCursorEligible`: no predicate filter, and the key is a
declared index **or the primary key**) holds, yet `findAll` does not take
the cursor path — the code only consults `store.indexNames`, which never
contains the primary key, so a primary-key sort silently falls back to the
in-memory full-scan sort. -/
theorem c5_counterexample_pk_sort :
    findAllPath (buildPlan [BuilderStep.sortByIndex "id" SortDirection.asc])
        { keyPath := "id", rows := [[("id", Value.vInt 2)], [("id", Value.vInt 1)]] }
      = QueryPath.fullScan ∧
    specCursorEligible (buildPlan [BuilderStep.sortByIndex "id" SortDirection.asc])
        { keyPath := "id", rows := [[("id", Value.vInt 2)], [("id", Value.vInt 1)]] }
      = true :=
  ⟨rfl, rfl⟩

/-- C5 (amended): `findAll` executes the sort via host-engine index-cursor
traversal exactly when no index-qualified filter is set, the cursor flag
is on, the requested key is a non-empty name among the store's declared
secondary indexes (the primary key does not qualify — sorting by it falls
back to the in-memory sort), and no predicate filter is active; and on
every successful path the returned rows are, before projection, ordered by
the orderBy key in the requested direction (stores are assumed to name
their indexes after their key paths, as every store provisioned by the
topology builder does). -/
theorem c5_sortByIndex_cursor_and_order :
    (∀ (plan : SelectPlan) (st : ObjectStore),
      findAllPath plan st = .cursorScan ↔
        (hasIndexFilter plan = false ∧ plan.useIndexCursor = true ∧
          (∃ k, plan.orderByKey = some k ∧ k ≠ "" ∧
            st.indexes.any (fun ix => ix.name == k) = true) ∧
          plan.whereCond = none)) ∧
    (∀ (table : String) (plan : SelectPlan) (st : ObjectStore) (k : String)
        (out : List RecordV),
      plan.orderByKey = some k → k ≠ "" →
      st.indexes.all (fun ix => ix.keyPath == ix.name) = true →
      findAll table plan st = .ok out →
      ∃ rows : List RecordV, out = rows.map (projectRow plan.selected) ∧
        rows.Pairwise (fun a b =>
          dirLe plan.orderByDir (getFieldD a k) (getFieldD b k) = true)) := by
  constructor
  · intro plan st
    constructor
    · intro hpath
      unfold findAllPath at hpath
      by_cases hif : hasIndexFilter plan = true
      · rw [hif] at hpath; simp at hpath
      · rw [Bool.not_eq_true] at hif
        rw [hif] at hpath
        simp only [Bool.false_eq_true, if_false] at hpath
        by_cases hcur : usesIdxCursor plan st = true
        · unfold usesIdxCursor at hcur
          simp only [Bool.and_eq_true] at hcur
          obtain ⟨⟨h1, h2⟩, h3⟩ := hcur
          cases horder : plan.orderByKey with
          | none => rw [horder] at h2; cases h2
          | some k0 =>
              rw [horder] at h2
              obtain ⟨h2a, h2b⟩ := (Bool.and_eq_true _ _).mp h2
              exact ⟨hif, h1, ⟨k0, rfl, by simpa using h2a, h2b⟩,
                Option.isNone_iff_eq_none.mp h3⟩
        · rw [Bool.not_eq_true] at hcur
          rw [hcur] at hpath
          simp at hpath
    · rintro ⟨hif, h1, ⟨k0, hk0, hne, hany⟩, hwc⟩
      have hcur : usesIdxCursor plan st = true := by
        unfold usesIdxCursor
        rw [h1, hk0, hwc]
        simp [hne, hany]
      unfold findAllPath
      rw [hif, hcur]
      rfl
  · intro table plan st k out horder hne hself hok
    unfold findAll at hok
    have hrel : ∀ (rows : List RecordV),
        (sortBy (rowFieldLe plan.orderByDir k) rows).Pairwise
          (fun a b => dirLe plan.orderByDir (getFieldD a k) (getFieldD b k) = true) := by
      intro rows
      have := pairwise_sortBy (rowFieldLe plan.orderByDir k)
        (rowFieldLe_total plan.orderByDir k)
        (fun a b c => rowFieldLe_trans) rows
      exact this.imp (fun hab => hab)
    have hsortStep : ∀ (rows : List RecordV),
        sortStep plan rows = sortBy (rowFieldLe plan.orderByDir k) rows := by
      intro rows
      unfold sortStep
      rw [horder]
      simp [hne]
    cases hpath : findAllPath plan st with
    | indexedGet =>
        rw [hpath] at hok
        cases hbis : buildIndexedStore st (plan.whereIndexName.getD "") table with
        | error e => rw [hbis] at hok; cases hok
        | ok src =>
            rw [hbis] at hok
            refine ⟨applyLimit plan.limitCount (sortStep plan
              (sourceGetAll st src (plan.whereIndexQuery.getD (.only .undef)))), ?_, ?_⟩
            · have := Except.ok.inj hok
              rw [← this]; rfl
            · rw [hsortStep]
              exact pairwise_applyLimit _ _ _ (hrel _)
    | fullScan =>
        rw [hpath] at hok
        refine ⟨applyLimit plan.limitCount (sortStep plan
          (applyPredFilter plan.whereCond (storeGetAll st))), ?_, ?_⟩
        · have := Except.ok.inj hok
          rw [← this]; rfl
        · rw [hsortStep]
          exact pairwise_applyLimit _ _ _ (hrel _)
    | cursorScan =>
        rw [hpath] at hok
        have hcur : usesIdxCursor plan st = true := by
          unfold findAllPath at hpath
          by_cases hif : hasIndexFilter plan = true
          · rw [hif] at hpath; simp at hpath
          · rw [Bool.not_eq_true] at hif
            rw [hif] at hpath
            by_cases hc : usesIdxCursor plan st = true
            · exact hc
            · rw [Bool.not_eq_true] at hc
              rw [hc] at hpath
              simp at hpath
        have hany : st.indexes.any (fun ix => ix.name == k) = true := by
          unfold usesIdxCursor at hcur
          simp only [Bool.and_eq_true] at hcur
          have h2 := hcur.1.2
          rw [horder] at h2
          exact (Bool.and_eq_true _ _ |>.mp h2).2
        obtain ⟨ix0, hix0⟩ : ∃ ix0, st.indexes.find? (fun ix => ix.name == k) = some ix0 := by
          rcases hfs : st.indexes.find? (fun ix => ix.name == k) with _ | ix0
          · exfalso
            rcases List.any_eq_true.mp hany with ⟨ix, hmem, hp⟩
            have := List.find?_eq_none.mp hfs ix hmem
            exact this hp
          · exact ⟨ix0, hfs⟩
        have hix0name : ix0.name = k := by
          have := List.find?_some hix0
          simpa using this
        have hix0mem : ix0 ∈ st.indexes := List.mem_of_find?_eq_some hix0
        have hix0kp : ix0.keyPath = k := by
          have := List.all_eq_true.mp hself ix0 hix0mem
          rw [← hix0name]
          simpa using this
        have hkp : (((st.indexes.find? (fun ix => ix.name == k)).map
            (fun ix => ix.keyPath)).getD k) = k := by
          rw [hix0]
          simp [hix0kp]
        refine ⟨applyLimit plan.limitCount (cursorTraversal plan st), ?_, ?_⟩
        · have := Except.ok.inj hok
          rw [← this]
        · apply pairwise_applyLimit
          unfold cursorTraversal
          rw [horder]
          simp only [Option.getD_some]
          rw [hkp]
          have hpw := pairwise_sortBy (idxLexLe st.keyPath k)
            (idxLexLe_total st.keyPath k)
            (fun a b c h1 h2 => idxLexLe_trans h1 h2)
            (st.rows.filter (fun r =>
              match getField r k with
              | some v => isValidKey v
              | none => false))
          cases hdir : plan.orderByDir with
          | asc =>
              unfold cursorEntries
              exact hpw.imp (fun hab => by
                simpa [dirLe] using idxLexLe_imp_le hab)
          | desc =>
              unfold cursorEntries
              rw [List.pairwise_reverse]
              exact hpw.imp (fun hab => by
                simpa [dirLe, flip] using idxLexLe_imp_le hab)

/-- Witness for C5: `sortByIndex("email","desc")` on a store with a
declared `email` index returns the two rows in descending email order via
the cursor path. -/
theorem c5_sortByIndex_cursor_and_order_witness :
    ∃ rows : List RecordV,
      ([[("id", Value.vInt 1), ("age", Value.vInt 40)],
        [("id", Value.vInt 2), ("age", Value.vInt 10)]] : List RecordV) =
        rows.map (projectRow (buildPlan
          [BuilderStep.sortByIndex "age" SortDirection.desc]).selected) ∧
      rows.Pairwise (fun a b =>
        dirLe (buildPlan [BuilderStep.sortByIndex "age" SortDirection.desc]).orderByDir
          (getFieldD a "age") (getFieldD b "age") = true) :=
  c5_sortByIndex_cursor_and_order.2 "users"
    (buildPlan [BuilderStep.sortByIndex "age" SortDirection.desc])
    { keyPath := "id", indexes := [⟨"age", "age", false⟩],
      rows := [[("id", Value.vInt 2), ("age", Value.vInt 10)],
               [("id", Value.vInt 1), ("age", Value.vInt 40)]] }
    "age"
    [[("id", Value.vInt 1), ("age", Value.vInt 40)],
     [("id", Value.vInt 2), ("age", Value.vInt 10)]]
    rfl (by decide) rfl rfl

/-- C8 counterexample: a snapshot row that omits its auto-generated uuid
primary key.  Preparation synthesizes a fresh uuid on each import, so the
second upsert import of the same snapshot adds a second record instead of
overwriting: the table contents after the second import differ from the
contents after the first. -/
theorem c8_counterexample_fresh_uuid :
    (importRun [("t", [("id", { type := TypeName.uuid, isPrimaryKey := true })])]
        (fun _ => some "id") [("t", [[]])] ImportMode.upsert none
        [("t", { keyPath := "id" })] 0).2
      = ([("t", { keyPath := "id", rows := [[("id", Value.vStr "uuid-0")]] })], 1) ∧
    (importRun [("t", [("id", { type := TypeName.uuid, isPrimaryKey := true })])]
        (fun _ => some "id") [("t", [[]])] ImportMode.upsert none
        [("t", { keyPath := "id", rows := [[("id", Value.vStr "uuid-0")]] })] 1).2.1
      = [("t", { keyPath := "id",
                 rows := [[("id", Value.vStr "uuid-0")],
                          [("id", Value.vStr "uuid-1")]] })] ∧
    ([("t", { keyPath := "id",
              rows := [[("id", Value.vStr "uuid-0")],
                       [("id", Value.vStr "uuid-1")]] })] :
      Database)
      ≠ [("t", { keyPath := "id", rows := [[("id", Value.vStr "uuid-0")]] })] :=
  ⟨rfl, rfl, by decide⟩

theorem any_key_iff (kp : String) (rows : List RecordV) (k : Option Value) :
    rows.any (fun row => recordKey kp row == k) = true ↔ k ∈ rowsKeys kp rows := by
  rw [List.any_eq_true]
  constructor
  · rintro ⟨row, hrow, hp⟩
    exact List.mem_map.mpr ⟨row, hrow, beq_iff_eq.mp hp⟩
  · intro h
    rcases List.mem_map.mp h with ⟨row, hrow, heq⟩
    exact ⟨row, hrow, beq_iff_eq.mpr heq⟩

theorem findByKey_eq_none_iff (kp : String) (rows : List RecordV) (k : Option Value) :
    findByKey kp rows k = none ↔ ¬ k ∈ rowsKeys kp rows := by
  unfold findByKey
  rw [List.find?_eq_none]
  constructor
  · intro h hmem
    rcases List.any_eq_true.mp ((any_key_iff kp rows k).mpr hmem) with ⟨row, hrow, hp⟩
    exact h row hrow hp
  · intro h row hrow hp
    exact h ((any_key_iff kp rows k).mp (List.any_eq_true.mpr ⟨row, hrow, hp⟩))

theorem findByKey_replaceAll (kp : String) (r : RecordV) (k : Option Value)
    (rows : List RecordV) :
    findByKey kp (rows.map (fun row =>
        if recordKey kp row == recordKey kp r then r else row)) k =
      (if recordKey kp r == k then
        (if rows.any (fun row => recordKey kp row == recordKey kp r) then some r else none)
      else findByKey kp rows k) := by
  induction rows with
  | nil =>
      by_cases hk : (recordKey kp r == k) = true <;> simp [findByKey, hk]
  | cons row0 rest ih =>
      unfold findByKey at ih ⊢
      rw [List.map_cons]
      by_cases c1 : (recordKey kp row0 == recordKey kp r) = true
      · rw [if_pos c1]
        have hc1 : recordKey kp row0 = recordKey kp r := beq_iff_eq.mp c1
        by_cases c2 : (recordKey kp r == k) = true
        · rw [List.find?_cons_of_pos (p := fun row => recordKey kp row == k) _ c2]
          have hany : ((row0 :: rest).any
              (fun row => recordKey kp row == recordKey kp r)) = true := by
            rw [List.any_cons, c1, Bool.true_or]
          rw [if_pos c2, if_pos hany]
        · have htest : ¬ ((recordKey kp row0 == k) = true) := by
            rw [hc1]; exact c2
          rw [List.find?_cons_of_neg (p := fun row => recordKey kp row == k) _ c2, ih]
          simp only [if_neg c2]
          rw [List.find?_cons_of_neg (p := fun row => recordKey kp row == k) _ htest]
      · rw [if_neg c1]
        have hc1f : (recordKey kp row0 == recordKey kp r) = false := by
          rw [← Bool.not_eq_true]; exact c1
        by_cases c3 : (recordKey kp row0 == k) = true
        · rw [List.find?_cons_of_pos (p := fun row => recordKey kp row == k) _ c3]
          have hc2 : ¬ ((recordKey kp r == k) = true) := by
            intro h2
            apply c1
            rw [beq_iff_eq.mp c3, ← beq_iff_eq.mp h2]
            exact beq_self_eq_true _
          rw [if_neg hc2, List.find?_cons_of_pos (p := fun row => recordKey kp row == k) _ c3]
        · rw [List.find?_cons_of_neg (p := fun row => recordKey kp row == k) _ c3, ih]
          by_cases c2 : (recordKey kp r == k) = true
          · simp only [if_pos c2, List.any_cons, hc1f, Bool.false_or]
          · simp only [if_neg c2]
            rw [List.find?_cons_of_neg (p := fun row => recordKey kp row == k) _ c3]

theorem findByKey_putRowPure (kp : String) (rows : List RecordV) (r : RecordV)
    (k : Option Value) :
    findByKey kp (putRowPure kp rows r) k =
      if recordKey kp r == k then some r else findByKey kp rows k := by
  unfold putRowPure
  by_cases hc : rows.any (fun row => recordKey kp row == recordKey kp r) = true
  · rw [if_pos hc, findByKey_replaceAll, hc]
    by_cases hk : (recordKey kp r == k) = true <;> simp [hk]
  · rw [if_neg hc]
    unfold findByKey
    rw [List.find?_append]
    by_cases hk : (recordKey kp r == k) = true
    · have hkeq : recordKey kp r = k := beq_iff_eq.mp hk
      have hnone : rows.find? (fun row => recordKey kp row == k) = none := by
        rw [List.find?_eq_none]
        intro row hrow hp
        apply hc
        refine List.any_eq_true.mpr ⟨row, hrow, ?_⟩
        rw [hkeq]
        exact hp
      rw [hnone, if_pos hk]
      simp [List.find?, hk]
    · simp only [if_neg hk]
      have hkf : (recordKey kp r == k) = false := by
        rw [← Bool.not_eq_true]; exact hk
      simp [List.find?, hkf, Option.or]
      cases rows.find? (fun row => recordKey kp row == k) <;> rfl

theorem findByKey_putFoldRows (kp : String) (ps : List RecordV) :
    ∀ (rows : List RecordV) (k : Option Value),
    findByKey kp (putFoldRows kp rows ps) k =
      ((ps.reverse.find? (fun r => recordKey kp r == k)).or (findByKey kp rows k)) := by
  induction ps with
  | nil => intro rows k; simp [putFoldRows]
  | cons r rs ih =>
    intro rows k
    unfold putFoldRows
    rw [ih, List.reverse_cons, List.find?_append, findByKey_putRowPure]
    cases hfs : rs.reverse.find? (fun r2 => recordKey kp r2 == k) with
    | some x => rfl
    | none =>
        by_cases hk : (recordKey kp r == k) = true
        · simp [List.find?, hk, Option.or]
        · have hkf : (recordKey kp r == k) = false := by
            rw [← Bool.not_eq_true]; exact hk
          simp [List.find?, hkf, Option.or]

theorem rowsKeys_putRowPure (kp : String) (rows : List RecordV) (r : RecordV) :
    rowsKeys kp (putRowPure kp rows r) =
      if rows.any (fun row => recordKey kp row == recordKey kp r) then rowsKeys kp rows
      else rowsKeys kp rows ++ [recordKey kp r] := by
  unfold putRowPure
  by_cases hc : rows.any (fun row => recordKey kp row == recordKey kp r) = true
  · rw [if_pos hc, if_pos hc]
    unfold rowsKeys
    rw [List.map_map]
    apply List.map_congr_left
    intro row _
    by_cases h2 : (recordKey kp row == recordKey kp r) = true
    · simp only [Function.comp_apply, if_pos h2]
      exact (beq_iff_eq.mp h2).symm
    · simp only [Function.comp_apply, if_neg h2]
  · rw [if_neg hc, if_neg hc]
    unfold rowsKeys
    rw [List.map_append]
    rfl

theorem mem_rowsKeys_putRowPure (kp : String) (rows : List RecordV) (r : RecordV)
    (k : Option Value) (h : k ∈ rowsKeys kp rows) :
    k ∈ rowsKeys kp (putRowPure kp rows r) := by
  rw [rowsKeys_putRowPure]
  split
  · exact h
  · exact List.mem_append_left _ h

theorem key_mem_putRowPure (kp : String) (rows : List RecordV) (r : RecordV) :
    recordKey kp r ∈ rowsKeys kp (putRowPure kp rows r) := by
  rw [rowsKeys_putRowPure]
  split
  · rename_i hc
    exact (any_key_iff kp rows (recordKey kp r)).mp hc
  · exact List.mem_append_right _ (List.mem_singleton.mpr rfl)

theorem mem_rowsKeys_putFoldRows (kp : String) (ps : List RecordV) :
    ∀ (rows : List RecordV) (k : Option Value), k ∈ rowsKeys kp rows →
    k ∈ rowsKeys kp (putFoldRows kp rows ps) := by
  induction ps with
  | nil => intro rows k h; exact h
  | cons r rs ih =>
    intro rows k h
    unfold putFoldRows
    exact ih _ k (mem_rowsKeys_putRowPure kp rows r k h)

theorem key_mem_putFoldRows (kp : String) (ps : List RecordV) :
    ∀ (rows : List RecordV) (r : RecordV), r ∈ ps →
    recordKey kp r ∈ rowsKeys kp (putFoldRows kp rows ps) := by
  induction ps with
  | nil => intro rows r h; cases h
  | cons p0 rs ih =>
    intro rows r h
    unfold putFoldRows
    rcases List.mem_cons.mp h with rfl | h2
    · exact mem_rowsKeys_putFoldRows kp rs _ _ (key_mem_putRowPure kp rows r)
    · exact ih _ r h2

theorem rowsKeys_putFoldRows_of_mem (kp : String) (ps : List RecordV) :
    ∀ (rows : List RecordV), (∀ r ∈ ps, recordKey kp r ∈ rowsKeys kp rows) →
    rowsKeys kp (putFoldRows kp rows ps) = rowsKeys kp rows := by
  induction ps with
  | nil => intro rows _; rfl
  | cons r rs ih =>
    intro rows h
    unfold putFoldRows
    have hr : recordKey kp r ∈ rowsKeys kp rows := h r (List.mem_cons_self _ _)
    have hany : rows.any (fun row => recordKey kp row == recordKey kp r) = true :=
      (any_key_iff kp rows (recordKey kp r)).mpr hr
    have hkeys : rowsKeys kp (putRowPure kp rows r) = rowsKeys kp rows := by
      rw [rowsKeys_putRowPure, if_pos hany]
    rw [ih _ (by intro r2 h2; rw [hkeys]; exact h r2 (List.mem_cons_of_mem _ h2)), hkeys]

theorem allDistinct_iff_nodup {α : Type} [BEq α] [LawfulBEq α] (l : List α) :
    allDistinct l = true ↔ l.Nodup := by
  induction l with
  | nil => simp [allDistinct]
  | cons x xs ih =>
    unfold allDistinct
    rw [Bool.and_eq_true, List.nodup_cons, ih]
    constructor
    · rintro ⟨h1, h2⟩
      refine ⟨?_, h2⟩
      intro hmem
      rw [Bool.not_eq_true'] at h1
      have : xs.contains x = true := List.elem_iff.mpr hmem
      rw [h1] at this
      cases this
    · rintro ⟨h1, h2⟩
      refine ⟨?_, h2⟩
      rw [Bool.not_eq_true']
      by_contra h3
      rw [Bool.not_eq_false] at h3
      exact h1 (List.elem_iff.mp h3)

theorem rows_ext (kp : String) : ∀ (a b : List RecordV),
    (rowsKeys kp a).Nodup →
    rowsKeys kp a = rowsKeys kp b →
    (∀ k, findByKey kp a k = findByKey kp b k) →
    a = b := by
  intro a
  induction a with
  | nil =>
    intro b _ hk _
    unfold rowsKeys at hk
    symm
    exact List.map_eq_nil.mp hk.symm
  | cons ra a2 ih =>
    intro b hd hk hl
    cases b with
    | nil => unfold rowsKeys at hk; cases hk
    | cons rb b2 =>
      unfold rowsKeys at hk
      rw [List.map_cons, List.map_cons, List.cons.injEq] at hk
      obtain ⟨hk0, hkt⟩ := hk
      have hra : findByKey kp (ra :: a2) (recordKey kp ra) = some ra := by
        unfold findByKey
        rw [List.find?_cons_of_pos
          (p := fun row => recordKey kp row == recordKey kp ra) _ (beq_self_eq_true _)]
      have hrb : findByKey kp (rb :: b2) (recordKey kp ra) = some rb := by
        unfold findByKey
        rw [List.find?_cons_of_pos
          (p := fun row => recordKey kp row == recordKey kp ra) _ (by
            rw [hk0]; exact beq_self_eq_true _)]
      have hab : ra = rb := by
        have := (hl (recordKey kp ra)).symm.trans hra
        rw [hrb] at this
        exact (Option.some.inj this).symm
      subst hab
      have hdt : (rowsKeys kp a2).Nodup := (List.nodup_cons.mp (by
        unfold rowsKeys at hd ⊢
        simpa using hd)).2
      have hnotmem : ¬ recordKey kp ra ∈ rowsKeys kp a2 := (List.nodup_cons.mp (by
        unfold rowsKeys at hd ⊢
        simpa using hd)).1
      refine congrArg (List.cons ra) (ih b2 hdt hkt ?_)
      intro k
      by_cases hke : (recordKey kp ra == k) = true
      · have hkeq : recordKey kp ra = k := beq_iff_eq.mp hke
        have ha2 : findByKey kp a2 k = none := by
          rw [findByKey_eq_none_iff]
          rw [← hkeq]
          exact hnotmem
        have hb2 : findByKey kp b2 k = none := by
          rw [findByKey_eq_none_iff]
          intro hm
          apply hnotmem
          rw [hkeq]
          unfold rowsKeys at hm ⊢
          rw [hkt]
          exact hm
        rw [ha2, hb2]
      · have h1 : findByKey kp (ra :: a2) k = findByKey kp a2 k := by
          unfold findByKey
          rw [List.find?_cons_of_neg (p := fun row => recordKey kp row == k) _ hke]
        have h2 : findByKey kp (ra :: b2) k = findByKey kp b2 k := by
          unfold findByKey
          rw [List.find?_cons_of_neg (p := fun row => recordKey kp row == k) _ hke]
        rw [← h1, ← h2]
        exact hl k

theorem mem_putRowPure {kp : String} {rows : List RecordV} {r row : RecordV}
    (h : row ∈ putRowPure kp rows r) : row = r ∨ row ∈ rows := by
  unfold putRowPure at h
  by_cases hc : rows.any (fun x => recordKey kp x == recordKey kp r) = true
  · rw [if_pos hc] at h
    rcases List.mem_map.mp h with ⟨row0, hmem, heq⟩
    by_cases h2 : (recordKey kp row0 == recordKey kp r) = true
    · rw [if_pos h2] at heq
      exact Or.inl heq.symm
    · rw [if_neg h2] at heq
      exact Or.inr (heq ▸ hmem)
  · rw [if_neg hc] at h
    rcases List.mem_append.mp h with h2 | h2
    · exact Or.inr h2
    · exact Or.inl (List.mem_singleton.mp h2)

theorem nodup_rowsKeys_putRowPure (kp : String) (rows : List RecordV) (r : RecordV)
    (hd : (rowsKeys kp rows).Nodup) : (rowsKeys kp (putRowPure kp rows r)).Nodup := by
  rw [rowsKeys_putRowPure]
  split
  · exact hd
  · rename_i hc
    rw [List.nodup_append]
    refine ⟨hd, List.nodup_singleton _, ?_⟩
    intro a ha hmem
    rw [List.mem_singleton] at hmem
    subst hmem
    exact absurd ((any_key_iff kp rows (recordKey kp r)).mpr ha) (by simpa using hc)

theorem nodup_rowsKeys_putFoldRows (kp : String) (ps : List RecordV) :
    ∀ (rows : List RecordV), (rowsKeys kp rows).Nodup →
    (rowsKeys kp (putFoldRows kp rows ps)).Nodup := by
  induction ps with
  | nil => intro rows h; exact h
  | cons r rs ih =>
    intro rows h
    exact ih _ (nodup_rowsKeys_putRowPure kp rows r h)

theorem keysSome_putRowPure (kp : String) (rows : List RecordV) (r : RecordV)
    (h : ∀ row ∈ rows, (recordKey kp row).isSome = true)
    (hr : (recordKey kp r).isSome = true) :
    ∀ row ∈ putRowPure kp rows r, (recordKey kp row).isSome = true := by
  intro row hrow
  rcases mem_putRowPure hrow with rfl | h2
  · exact hr
  · exact h row h2

theorem keysSome_putFoldRows (kp : String) (ps : List RecordV) :
    ∀ (rows : List RecordV),
    (∀ row ∈ rows, (recordKey kp row).isSome = true) →
    (∀ r ∈ ps, (recordKey kp r).isSome = true) →
    ∀ row ∈ putFoldRows kp rows ps, (recordKey kp row).isSome = true := by
  induction ps with
  | nil => intro rows h _ row hrow; exact h row hrow
  | cons r rs ih =>
    intro rows h hp row hrow
    exact ih _ (keysSome_putRowPure kp rows r h (hp r (List.mem_cons_self _ _)))
      (fun r2 h2 => hp r2 (List.mem_cons_of_mem _ h2)) row hrow

theorem bumpFold_le (auto : Bool) (ks : List (Option Value)) :
    ∀ n : Int, n ≤ bumpFold auto n ks := by
  induction ks with
  | nil => intro n; simp [bumpFold]
  | cons k ks ih =>
    intro n
    cases k with
    | none => simpa [bumpFold] using ih n
    | some v =>
      cases v with
      | vInt m =>
          refine le_trans ?_ (ih (if auto && m ≥ n then m + 1 else n))
          split
          · rename_i hcond
            have := ((Bool.and_eq_true _ _).mp hcond).2
            simp only [decide_eq_true_eq] at this
            omega
          · exact le_refl n
      | vStr s => simpa [bumpFold] using ih n
      | vBool b => simpa [bumpFold] using ih n
      | undef => simpa [bumpFold] using ih n

theorem bumpFold_bound (ks : List (Option Value)) :
    ∀ (n m : Int), some (Value.vInt m) ∈ ks → m < bumpFold true n ks := by
  induction ks with
  | nil => intro n m hmem; cases hmem
  | cons k ks ih =>
    intro n m hmem
    rcases List.mem_cons.mp hmem with heq | hmem2
    · subst heq
      show m < bumpFold true (if true && m ≥ n then m + 1 else n) ks
      refine lt_of_lt_of_le ?_ (bumpFold_le true ks _)
      by_cases hge : m ≥ n
      · simp [hge]
      · simp only [Bool.true_and]
        rw [if_neg (by simpa using hge)]
        omega
    · cases k with
      | none => simpa [bumpFold] using ih n m hmem2
      | some v =>
        cases v with
        | vInt m2 =>
            exact ih _ m hmem2
        | vStr s => simpa [bumpFold] using ih n m hmem2
        | vBool b => simpa [bumpFold] using ih n m hmem2
        | undef => simpa [bumpFold] using ih n m hmem2

theorem bumpFold_absorb (auto : Bool) (ks : List (Option Value)) :
    ∀ n : Int, (∀ m : Int, auto = true → some (Value.vInt m) ∈ ks → m < n) →
    bumpFold auto n ks = n := by
  induction ks with
  | nil => intro n _; rfl
  | cons k ks ih =>
    intro n h
    cases k with
    | none => exact ih n (fun m ha hm => h m ha (List.mem_cons_of_mem _ hm))
    | some v =>
      cases v with
      | vInt m =>
          show bumpFold auto (if auto && m ≥ n then m + 1 else n) ks = n
          have hcond : (auto && m ≥ n) = false := by
            cases hauto : auto
            · rfl
            · have := h m hauto (List.mem_cons_self _ _)
              simp only [Bool.true_and, decide_eq_true_eq]
              simpa using (by omega : ¬ m ≥ n)
          rw [hcond]
          simp only [Bool.false_eq_true, if_false]
          exact ih n (fun m2 ha hm => h m2 ha (List.mem_cons_of_mem _ hm))
      | vStr s => exact ih n (fun m ha hm => h m ha (List.mem_cons_of_mem _ hm))
      | vBool b => exact ih n (fun m ha hm => h m ha (List.mem_cons_of_mem _ hm))
      | undef => exact ih n (fun m ha hm => h m ha (List.mem_cons_of_mem _ hm))

theorem recordKey_isSome_elim {kp : String} {r : RecordV}
    (h : (recordKey kp r).isSome = true) :
    ∃ v, getField r kp = some v ∧ isValidKey v = true ∧ recordKey kp r = some v := by
  cases hr : recordKey kp r with
  | none => rw [hr] at h; cases h
  | some v =>
    have hkey : getField r kp = some v ∧ isValidKey v = true := by
      unfold recordKey at hr
      split at hr
      · rename_i w hg
        by_cases hv : isValidKey w = true
        · rw [if_pos hv] at hr
          cases hr
          exact ⟨hg, hv⟩
        · rw [if_neg hv] at hr; cases hr
      · cases hr
    exact ⟨v, hkey.1, hkey.2, rfl⟩

theorem uniqueViolation_none (st : ObjectStore) (k : Value) (r : RecordV)
    (huniq : st.indexes.all (fun ix => !ix.unique) = true) :
    uniqueViolation st k r = none := by
  unfold uniqueViolation
  rw [List.find?_eq_none]
  intro ix hix
  have h2 := List.all_eq_true.mp huniq ix hix
  simp only [Bool.not_eq_true'] at h2
  simp [h2]

theorem bumpAutoInc_eq (st : ObjectStore) (v : Value) :
    bumpAutoInc st v =
      { st with autoIncNext := bumpFold st.autoIncrement st.autoIncNext [some v] } := by
  cases v with
  | vInt m =>
      show (if st.autoIncrement && m ≥ st.autoIncNext then
              { st with autoIncNext := m + 1 } else st) = _
      split
      · rename_i h
        simp only [bumpFold, h, if_true]
      · rename_i h
        simp only [bumpFold, h]
        rfl
  | vStr s => rfl
  | vBool b => rfl
  | undef => rfl

theorem storePut_char (st : ObjectStore) (r : RecordV)
    (huniq : st.indexes.all (fun ix => !ix.unique) = true)
    (hk : (recordKey st.keyPath r).isSome = true) :
    storePut st r = .ok { st with
      autoIncNext := bumpFold st.autoIncrement st.autoIncNext [recordKey st.keyPath r],
      rows := putRowPure st.keyPath st.rows r } := by
  rcases recordKey_isSome_elim hk with ⟨v, hget, hvalid, hrk⟩
  have hne : (v == Value.undef) = false := by
    cases v <;> simp_all [isValidKey]
  have hb := bumpAutoInc_eq st v
  have hun : uniqueViolation (bumpAutoInc st v) v r = none := by
    apply uniqueViolation_none
    rw [hb]
    exact huniq
  unfold storePut resolveKey
  simp only [hget]
  rw [if_neg (by simp [hne])]
  rw [if_pos hvalid]
  simp only [bind, Except.bind, hun]
  rw [hb]
  dsimp only
  unfold putRowPure
  rw [hrk]
  split
  · rfl
  · rfl

theorem bumpFold_cons (auto : Bool) (n : Int) (k : Option Value) (ks : List (Option Value)) :
    bumpFold auto n (k :: ks) = bumpFold auto (bumpFold auto n [k]) ks := by
  match k with
  | none => rfl
  | some (.vInt m) => rfl
  | some (.vStr s) => rfl
  | some (.vBool b) => rfl
  | some .undef => rfl

theorem applyOps_puts_char (ps : List RecordV) :
    ∀ (st : ObjectStore),
    st.indexes.all (fun ix => !ix.unique) = true →
    (∀ r ∈ ps, (recordKey st.keyPath r).isSome = true) →
    applyOps st (ps.map StoreOp.putOp) =
      .ok { st with
        autoIncNext := bumpFold st.autoIncrement st.autoIncNext
          (ps.map (recordKey st.keyPath)),
        rows := putFoldRows st.keyPath st.rows ps } := by
  induction ps with
  | nil =>
    intro st _ _
    rfl
  | cons r rs ih =>
    intro st huniq hkeys
    have hk : (recordKey st.keyPath r).isSome = true := hkeys r (List.mem_cons_self _ _)
    have hst1 := storePut_char st r huniq hk
    have hih := ih
      { st with
        autoIncNext := bumpFold st.autoIncrement st.autoIncNext [recordKey st.keyPath r],
        rows := putRowPure st.keyPath st.rows r }
      huniq (fun r2 h2 => hkeys r2 (List.mem_cons_of_mem _ h2))
    simp only [List.map_cons, applyOps, applyOp, hst1, hih]
    rw [bumpFold_cons st.autoIncrement st.autoIncNext (recordKey st.keyPath r)
      (List.map (recordKey st.keyPath) rs)]
    rfl

theorem putFoldRows_replay (kp : String) (ps rows : List RecordV)
    (hd : (rowsKeys kp rows).Nodup) :
    putFoldRows kp (putFoldRows kp rows ps) ps = putFoldRows kp rows ps := by
  apply rows_ext kp
  · exact nodup_rowsKeys_putFoldRows kp ps _ (nodup_rowsKeys_putFoldRows kp ps rows hd)
  · apply rowsKeys_putFoldRows_of_mem
    intro r hr
    exact key_mem_putFoldRows kp ps rows r hr
  · intro k
    rw [findByKey_putFoldRows, findByKey_putFoldRows]
    cases ps.reverse.find? (fun r => recordKey kp r == k) <;> simp [Option.or]

theorem applyOps_puts_replay (st st1 : ObjectStore) (ps : List RecordV)
    (huniq : st.indexes.all (fun ix => !ix.unique) = true)
    (hkeys : ∀ r ∈ ps, (recordKey st.keyPath r).isSome = true)
    (hd : (rowsKeys st.keyPath st.rows).Nodup)
    (h1 : applyOps st (ps.map StoreOp.putOp) = .ok st1) :
    applyOps st1 (ps.map StoreOp.putOp) = .ok st1 := by
  rw [applyOps_puts_char ps st huniq hkeys] at h1
  injection h1 with h1
  subst h1
  rw [applyOps_puts_char ps
    { keyPath := st.keyPath, autoIncrement := st.autoIncrement,
      autoIncNext := bumpFold st.autoIncrement st.autoIncNext
        (List.map (recordKey st.keyPath) ps),
      indexes := st.indexes, rows := putFoldRows st.keyPath st.rows ps }
    huniq hkeys]
  have hnext : bumpFold st.autoIncrement
      (bumpFold st.autoIncrement st.autoIncNext (ps.map (recordKey st.keyPath)))
      (ps.map (recordKey st.keyPath)) =
      bumpFold st.autoIncrement st.autoIncNext (ps.map (recordKey st.keyPath)) := by
    apply bumpFold_absorb
    intro m ha hm
    rw [ha]
    exact bumpFold_bound (ps.map (recordKey st.keyPath)) st.autoIncNext m hm
  have hrows := putFoldRows_replay st.keyPath ps st.rows hd
  dsimp only
  rw [hnext, hrows]

theorem hasField_setField_mono (r : RecordV) (f k : String) (v : Value)
    (h : hasField r k = true) : hasField (setField r f v) k = true := by
  induction r with
  | nil => cases h
  | cons p rest ih =>
    unfold setField
    rcases p with ⟨k1, v1⟩
    unfold hasField at h
    rw [List.any_cons, Bool.or_eq_true] at h
    by_cases hc : (k1 == f) = true
    · rw [if_pos hc]
      unfold hasField
      rw [List.any_cons, Bool.or_eq_true]
      rcases h with h | h
      · left
        rw [beq_iff_eq] at hc h ⊢
        rw [← hc, h]
      · right
        exact h
    · rw [if_neg hc]
      unfold hasField
      rw [List.any_cons, Bool.or_eq_true]
      rcases h with h | h
      · exact Or.inl h
      · exact Or.inr (ih h)

theorem checkColumnValue_ok_eq {t : String} {kp : Option String} {fu : Bool}
    {prep : RecordV} {f : String} {c : Column} {b : Bool} {x : RecordV}
    (h : checkColumnValue t kp fu prep f c b = .ok x) : x = prep := by
  unfold checkColumnValue at h
  dsimp only at h
  repeat' split at h
  all_goals first
  | exact (Except.ok.inj h).symm
  | exact Except.noConfusion h

theorem mapCheck_ok {t : String} {kp : Option String} {fu : Bool} {prep : RecordV}
    {f : String} {c : Column} {b : Bool} {r2 : RecordV} {g g2 : Nat}
    (h : Except.map (fun r => (r, g)) (checkColumnValue t kp fu prep f c b) =
      .ok (r2, g2)) : r2 = prep ∧ g2 = g := by
  cases hcv : checkColumnValue t kp fu prep f c b with
  | error e => rw [hcv] at h; exact Except.noConfusion h
  | ok x =>
    rw [hcv] at h
    simp only [Except.map] at h
    have h2 := Except.ok.inj h
    have hr := congrArg Prod.fst h2
    have hg := congrArg Prod.snd h2
    dsimp only at hr hg
    exact ⟨hr.symm.trans (checkColumnValue_ok_eq hcv), hg.symm⟩

theorem processColumn_record_mono {t : String} {kp : Option String} {fu : Bool}
    {r : RecordV} {g : Nat} {f : String} {c : Column} {r2 : RecordV} {g2 : Nat}
    (h : processColumn t kp fu (r, g) f c = .ok (r2, g2)) :
    ∀ k, hasField r k = true → hasField r2 k = true := by
  intro k hk
  unfold processColumn at h
  dsimp only at h
  by_cases h1 : (!fu && !hasField r f) = true
  · rw [if_pos h1] at h
    by_cases h2 : (c.type == TypeName.uuid && c.defaultValue.isNone) = true
    · rw [if_pos h2] at h
      have h3 := congrArg Prod.fst (Except.ok.inj h)
      dsimp only at h3
      rw [← h3]
      exact hasField_setField_mono r f k _ hk
    · rw [if_neg h2] at h
      by_cases h4 : (c.type == TypeName.timestamp && c.defaultValue.isNone) = true
      · rw [if_pos h4] at h
        have h3 := congrArg Prod.fst (Except.ok.inj h)
        dsimp only at h3
        rw [← h3]
        exact hasField_setField_mono r f k _ hk
      · rw [if_neg h4] at h
        cases hd : c.defaultValue with
        | some d =>
          rw [hd] at h
          have h3 := (mapCheck_ok h).1
          rw [h3]
          exact hasField_setField_mono r f k _ hk
        | none =>
          rw [hd] at h
          have h3 := (mapCheck_ok h).1
          rw [h3]
          exact hk
  · rw [if_neg h1] at h
    have h3 := (mapCheck_ok h).1
    rw [h3]
    exact hk

theorem processColumn_gen_free (t : String) (kp : Option String) (r : RecordV)
    (f : String) (c : Column) (g g' : Nat)
    (hprov : (!((c.type == TypeName.uuid || c.type == TypeName.timestamp) &&
        c.defaultValue.isNone) || hasField r f) = true) :
    processColumn t kp false (r, g) f c =
      Except.map (fun p => (p.1, g)) (processColumn t kp false (r, g') f c) := by
  unfold processColumn
  dsimp only
  by_cases h1 : (!false && !hasField r f) = true
  · rw [if_pos h1, if_pos h1]
    have hnf : hasField r f = false := by
      simpa using h1
    rw [hnf] at hprov
    simp only [Bool.or_false] at hprov
    have hinner : ((c.type == TypeName.uuid || c.type == TypeName.timestamp) &&
        c.defaultValue.isNone) = false := by
      have h7 := hprov
      simp only [Bool.not_eq_true'] at h7
      exact h7
    have huuid : (c.type == TypeName.uuid && c.defaultValue.isNone) = false := by
      cases h5 : (c.type == TypeName.uuid) <;> cases h6 : c.defaultValue.isNone <;>
        simp_all
    have hts : (c.type == TypeName.timestamp && c.defaultValue.isNone) = false := by
      cases h5 : (c.type == TypeName.timestamp) <;> cases h6 : c.defaultValue.isNone <;>
        simp_all
    simp only [huuid, hts, Bool.false_eq_true, if_false]
    cases hd : c.defaultValue with
    | some d =>
      dsimp only
      cases hcv : checkColumnValue t kp false (setField r f d) f c false <;>
        simp [Except.map]
    | none =>
      dsimp only
      cases hcv : checkColumnValue t kp false r f c true <;> simp [Except.map]
  · rw [if_neg h1, if_neg h1]
    cases hcv : checkColumnValue t kp false r f c (!hasField r f) <;> simp [Except.map]

theorem prepFold_gen_free (t : String) (kp : Option String) (cols : ColumnDef) :
    ∀ (r : RecordV) (g g' : Nat),
    (∀ c ∈ cols, (!((c.2.type == TypeName.uuid || c.2.type == TypeName.timestamp) &&
        c.2.defaultValue.isNone) || hasField r c.1) = true) →
    cols.foldlM (fun st c => processColumn t kp false st c.1 c.2) (r, g) =
      Except.map (fun p => (p.1, g))
        (cols.foldlM (fun st c => processColumn t kp false st c.1 c.2) (r, g')) := by
  induction cols with
  | nil => intro r g g' _; rfl
  | cons c cs ih =>
    intro r g g' hprov
    rw [List.foldlM_cons, List.foldlM_cons]
    have hc := processColumn_gen_free t kp r c.1 c.2 g g' (hprov c (List.mem_cons_self _ _))
    rw [hc]
    cases hpc : processColumn t kp false (r, g') c.1 c.2 with
    | error e => simp [Except.map, bind, Except.bind]
    | ok p =>
      rcases p with ⟨r1, g1⟩
      simp only [Except.map, bind, Except.bind]
      have hprov1 : ∀ c2 ∈ cs,
          (!((c2.2.type == TypeName.uuid || c2.2.type == TypeName.timestamp) &&
            c2.2.defaultValue.isNone) || hasField r1 c2.1) = true := by
        intro c2 h2
        have h0 := hprov c2 (List.mem_cons_of_mem _ h2)
        rcases (Bool.or_eq_true _ _).mp h0 with h3 | h3
        · rw [h3]
          rfl
        · rw [processColumn_record_mono hpc c2.1 h3]
          simp
      exact ih r1 g g1 hprov1

theorem validateAndPrepareData_gen_free (t : String) (kp : Option String)
    (cols : Option ColumnDef) (r : RecordV) (g g' : Nat)
    (hprov : rowProvidesAutoFields (cols.getD []) r = true) :
    validateAndPrepareData r cols kp t false g =
      Except.map (fun p => (p.1, g)) (validateAndPrepareData r cols kp t false g') := by
  cases cols with
  | none => rfl
  | some cs =>
    unfold validateAndPrepareData
    dsimp only
    cases hf : r.find? (fun p => !(cs.any (fun c => c.1 == p.1))) with
    | some p => rfl
    | none =>
      apply prepFold_gen_free
      intro c hc
      exact List.all_eq_true.mp hprov c hc

theorem importRowsOps_gen_free (cols : Option ColumnDef) (kp : Option String)
    (t : String) (mode : ImportMode) (rows : List RecordV)
    (hprov : rows.all (fun r => rowProvidesAutoFields (cols.getD []) r) = true) :
    ∀ g g', importRowsOps cols kp t mode g rows =
      ((importRowsOps cols kp t mode g' rows).1, g,
        (importRowsOps cols kp t mode g' rows).2.2) := by
  induction rows with
  | nil => intro g g'; rfl
  | cons r rs ih =>
    intro g g'
    have hmem : rowProvidesAutoFields (cols.getD []) r = true :=
      List.all_eq_true.mp hprov r (List.mem_cons_self _ _)
    have htail : rs.all (fun r2 => rowProvidesAutoFields (cols.getD []) r2) = true := by
      rw [List.all_eq_true]
      intro r2 h2
      exact List.all_eq_true.mp hprov r2 (List.mem_cons_of_mem _ h2)
    have hv := validateAndPrepareData_gen_free t kp cols r g g' hmem
    simp only [importRowsOps]
    rw [hv]
    cases hval : validateAndPrepareData r cols kp t false g' with
    | error e => simp [Except.map]
    | ok p =>
      rcases p with ⟨p1, g2⟩
      have hg2 : g2 = g' := by
        have h0 := validateAndPrepareData_gen_free t kp cols r g' g' hmem
        rw [hval] at h0
        simpa [Except.map] using (congrArg Prod.snd (Except.ok.inj h0).symm).symm
      subst hg2
      simp only [Except.map]
      have ih' := ih htail g g2
      cases hA : importRowsOps cols kp t mode g rs with
      | mk ops1 q1 =>
        cases hB : importRowsOps cols kp t mode g2 rs with
        | mk ops2 q2 =>
          rcases q1 with ⟨gen1, err1⟩
          rcases q2 with ⟨gen2, err2⟩
          rw [hA, hB] at ih'
          dsimp only at ih' ⊢
          have hops : ops1 = ops2 := congrArg Prod.fst ih'
          have hgen : gen1 = g := congrArg (fun x => x.2.1) ih'
          have herr : err1 = err2 := congrArg (fun x => x.2.2) ih'
          rw [hops, hgen, herr]

theorem buildImportBlocks_gen_free (s : Schema) (keyPaths : String → Option String)
    (mode : ImportMode) (dataMap : List (String × List RecordV)) (ts : List String)
    (hprov : snapshotProvidesAutoFields s dataMap ts = true) :
    ∀ g g', buildImportBlocks s keyPaths mode dataMap g ts =
      ((buildImportBlocks s keyPaths mode dataMap g' ts).1, g,
        (buildImportBlocks s keyPaths mode dataMap g' ts).2.2) := by
  induction ts with
  | nil => intro g g'; rfl
  | cons t ts ih =>
    intro g g'
    have hrows := List.all_eq_true.mp hprov t (List.mem_cons_self _ _)
    have htail : snapshotProvidesAutoFields s dataMap ts = true := by
      rw [snapshotProvidesAutoFields, List.all_eq_true]
      intro t2 h2
      exact List.all_eq_true.mp hprov t2 (List.mem_cons_of_mem _ h2)
    have hio := importRowsOps_gen_free (lookupColumns s t) (keyPaths t) t mode
      (((dataMap.find? (fun p => p.1 == t)).map Prod.snd).getD []) hrows g g'
    simp only [buildImportBlocks]
    rw [hio]
    cases hB : importRowsOps (lookupColumns s t) (keyPaths t) t mode g'
        (((dataMap.find? (fun p => p.1 == t)).map Prod.snd).getD []) with
    | mk ops q =>
      rcases q with ⟨gen1, err1⟩
      dsimp only
      cases err1 with
      | some e => rfl
      | none =>
        dsimp only
        have ih' := ih htail g gen1
        cases hC : buildImportBlocks s keyPaths mode dataMap g ts with
        | mk rest1 q1 =>
          cases hD : buildImportBlocks s keyPaths mode dataMap gen1 ts with
          | mk rest2 q2 =>
            rcases q1 with ⟨gen2, err2⟩
            rcases q2 with ⟨gen3, err3⟩
            rw [hC, hD] at ih'
            dsimp only at ih' ⊢
            have h1 : rest1 = rest2 := congrArg Prod.fst ih'
            have h2 : gen2 = g := congrArg (fun x => x.2.1) ih'
            have h3 : err2 = err3 := congrArg (fun x => x.2.2) ih'
            rw [h1, h2, h3]

theorem lookupStore_eq_some {db : Database} {t : String} {st : ObjectStore}
    (h : lookupStore db t = some st) : (t, st) ∈ db := by
  unfold lookupStore at h
  cases hf : db.find? (fun p => p.1 == t) with
  | none => rw [hf] at h; cases h
  | some p =>
    rw [hf] at h
    have hp := List.find?_some hf
    have hmem := List.mem_of_find?_eq_some hf
    have h2 : p.2 = st := Option.some.inj h
    have h1 : p.1 = t := beq_iff_eq.mp hp
    have h3 : p = (t, st) := by rw [← h1, ← h2]
    rw [← h3]
    exact hmem

theorem wellKeyed_of_lookup {db : Database} {t : String} {st : ObjectStore}
    (hwk : wellKeyedDB db = true) (h : lookupStore db t = some st) :
    wellKeyedStore st = true :=
  List.all_eq_true.mp hwk (t, st) (lookupStore_eq_some h)

theorem noUnique_of_lookup {db : Database} {t : String} {st : ObjectStore}
    (hnu : db.all (fun p => p.2.indexes.all (fun ix => !ix.unique)) = true)
    (h : lookupStore db t = some st) :
    st.indexes.all (fun ix => !ix.unique) = true :=
  List.all_eq_true.mp hnu (t, st) (lookupStore_eq_some h)

theorem lookupStore_updateStore_self (t : String) (stN : ObjectStore) :
    ∀ (db : Database) (st : ObjectStore), lookupStore db t = some st →
    lookupStore (updateStore db t stN) t = some stN := by
  intro db
  induction db with
  | nil => intro st h; simp [lookupStore] at h
  | cons p rest ih =>
    intro st h
    by_cases hc : (p.1 == t) = true
    · unfold updateStore
      rw [List.map_cons, if_pos hc]
      unfold lookupStore
      rw [List.find?_cons_of_pos (p := fun q : String × ObjectStore => q.1 == t) _ (by simp)]
      rfl
    · unfold lookupStore at h
      rw [List.find?_cons_of_neg (p := fun q : String × ObjectStore => q.1 == t) _ hc] at h
      unfold updateStore lookupStore
      rw [List.map_cons, if_neg hc]
      rw [List.find?_cons_of_neg (p := fun q : String × ObjectStore => q.1 == t) _ hc]
      exact ih st h

theorem lookupStore_updateStore_other (t t2 : String) (stN : ObjectStore)
    (hne : ¬ t2 = t) : ∀ (db : Database),
    lookupStore (updateStore db t stN) t2 = lookupStore db t2 := by
  intro db
  induction db with
  | nil => rfl
  | cons p rest ih =>
    unfold updateStore lookupStore at ih ⊢
    rw [List.map_cons]
    by_cases hc : (p.1 == t) = true
    · rw [if_pos hc]
      have hfn : ((t, stN).1 == t2) = false := by
        simp only [beq_eq_false_iff_ne, ne_eq]
        intro h2
        exact hne (h2.symm)
      have hpn : (p.1 == t2) = false := by
        rw [beq_iff_eq] at hc
        simp only [beq_eq_false_iff_ne, ne_eq, hc]
        intro h2
        exact hne h2.symm
      rw [List.find?_cons_of_neg (p := fun q : String × ObjectStore => q.1 == t2) _ (by simp [hfn])]
      rw [List.find?_cons_of_neg (p := fun q : String × ObjectStore => q.1 == t2) _ (by simp [hpn])]
      exact ih
    · rw [if_neg hc]
      by_cases hp2 : (p.1 == t2) = true
      · rw [List.find?_cons_of_pos (p := fun q : String × ObjectStore => q.1 == t2) _ hp2,
          List.find?_cons_of_pos (p := fun q : String × ObjectStore => q.1 == t2) _ hp2]
      · rw [List.find?_cons_of_neg (p := fun q : String × ObjectStore => q.1 == t2) _ hp2,
          List.find?_cons_of_neg (p := fun q : String × ObjectStore => q.1 == t2) _ hp2]
        exact ih

theorem updateStore_map_fst (db : Database) (t : String) (stN : ObjectStore) :
    (updateStore db t stN).map (fun p => p.1) = db.map (fun p => p.1) := by
  unfold updateStore
  rw [List.map_map]
  apply List.map_congr_left
  intro p _
  by_cases hc : (p.1 == t) = true
  · simp only [Function.comp_apply, if_pos hc]
    exact (beq_iff_eq.mp hc).symm
  · simp only [Function.comp_apply, if_neg hc]

theorem wellKeyedDB_updateStore (db : Database) (t : String) (stN : ObjectStore)
    (hwk : wellKeyedDB db = true) (hN : wellKeyedStore stN = true) :
    wellKeyedDB (updateStore db t stN) = true := by
  unfold wellKeyedDB updateStore at *
  rw [List.all_eq_true]
  intro p hp
  rcases List.mem_map.mp hp with ⟨q, hq, heq⟩
  by_cases hc : (q.1 == t) = true
  · rw [if_pos hc] at heq
    rw [← heq]
    exact hN
  · rw [if_neg hc] at heq
    rw [← heq]
    exact List.all_eq_true.mp hwk q hq

theorem noUnique_updateStore (db : Database) (t : String) (stN : ObjectStore)
    (hnu : db.all (fun p => p.2.indexes.all (fun ix => !ix.unique)) = true)
    (hN : stN.indexes.all (fun ix => !ix.unique) = true) :
    (updateStore db t stN).all (fun p => p.2.indexes.all (fun ix => !ix.unique)) = true := by
  unfold updateStore
  rw [List.all_eq_true]
  intro p hp
  rcases List.mem_map.mp hp with ⟨q, hq, heq⟩
  by_cases hc : (q.1 == t) = true
  · rw [if_pos hc] at heq
    rw [← heq]
    exact hN
  · rw [if_neg hc] at heq
    rw [← heq]
    exact List.all_eq_true.mp hnu q hq

theorem updateStore_self_id (t : String) : ∀ (db : Database) (st : ObjectStore),
    allDistinct (db.map (fun p => p.1)) = true →
    lookupStore db t = some st →
    updateStore db t st = db := by
  intro db
  induction db with
  | nil => intro st _ h; simp [lookupStore] at h
  | cons p rest ih =>
    intro st hd h
    have hd2 : allDistinct (rest.map (fun p => p.1)) = true := by
      unfold allDistinct at hd
      rw [List.map_cons] at hd
      exact ((Bool.and_eq_true _ _).mp hd).2
    by_cases hc : (p.1 == t) = true
    · unfold lookupStore at h
      rw [List.find?_cons_of_pos (p := fun q : String × ObjectStore => q.1 == t) _ hc] at h
      have h2 : p.2 = st := Option.some.inj h
      have h1 : p.1 = t := beq_iff_eq.mp hc
      unfold updateStore
      rw [List.map_cons, if_pos hc]
      have hnot : rest.map (fun q => if q.1 == t then (t, st) else q) = rest := by
        conv_rhs => rw [← List.map_id rest]
        apply List.map_congr_left
        intro q hq
        have hqt : (q.1 == t) = false := by
          unfold allDistinct at hd
          rw [List.map_cons, Bool.and_eq_true, Bool.not_eq_true'] at hd
          have hnc := hd.1
          rw [beq_eq_false_iff_ne]
          intro hqeq
          have : (rest.map (fun p => p.1)).contains p.1 = true := by
            rw [h1]
            rw [← hqeq]
            exact List.elem_iff.mpr (List.mem_map.mpr ⟨q, hq, rfl⟩)
          rw [hnc] at this
          cases this
        rw [hqt]
        rfl

      rw [hnot]
      have h3 : (t, st) = p := by rw [← h1, ← h2]
      rw [h3]
    · unfold lookupStore at h
      rw [List.find?_cons_of_neg (p := fun q : String × ObjectStore => q.1 == t) _ hc] at h
      unfold updateStore
      rw [List.map_cons, if_neg hc]
      have := ih st hd2 h
      unfold updateStore at this
      rw [this]

theorem importRowsOps_upsert_puts (cols : Option ColumnDef) (kp : Option String)
    (t : String) (rows : List RecordV) :
    ∀ (g : Nat) (ops : List StoreOp) (g2 : Nat) (err : Option PrepError),
    importRowsOps cols kp t ImportMode.upsert g rows = (ops, g2, err) →
    ∃ ps : List RecordV, ops = ps.map StoreOp.putOp := by
  induction rows with
  | nil =>
    intro g ops g2 err h
    have hops : ops = [] := (congrArg Prod.fst h).symm
    exact ⟨[], by rw [hops]; rfl⟩
  | cons r rs ih =>
    intro g ops g2 err h
    rw [importRowsOps] at h
    cases hv : validateAndPrepareData r cols kp t false g with
    | error e =>
      rw [hv] at h
      dsimp only at h
      have hops : ops = [] := (congrArg Prod.fst h).symm
      exact ⟨[], by rw [hops]; rfl⟩
    | ok p =>
      rcases p with ⟨p1, g1⟩
      rw [hv] at h
      dsimp only at h
      cases hio : importRowsOps cols kp t ImportMode.upsert g1 rs with
      | mk ops1 q =>
        rcases q with ⟨gen2, err2⟩
        rw [hio] at h
        dsimp only at h
        rcases ih g1 ops1 gen2 err2 hio with ⟨ps, hps⟩
        have hops := (congrArg Prod.fst h).symm
        dsimp only at hops
        refine ⟨p1 :: ps, ?_⟩
        rw [hops, hps]
        rfl

theorem buildImportBlocks_upsert_puts (s : Schema) (keyPaths : String → Option String)
    (dataMap : List (String × List RecordV)) :
    ∀ (ts : List String) (g : Nat) (blocks : List (String × List StoreOp))
      (g2 : Nat) (err : Option PrepError),
    buildImportBlocks s keyPaths ImportMode.upsert dataMap g ts = (blocks, g2, err) →
    ∀ b ∈ blocks, ∃ ps : List RecordV, b.2 = ps.map StoreOp.putOp := by
  intro ts
  induction ts with
  | nil =>
    intro g blocks g2 err h b hb
    have hblocks : blocks = [] := (congrArg Prod.fst h).symm
    rw [hblocks] at hb
    cases hb
  | cons t ts2 ih =>
    intro g blocks g2 err h b hb
    rw [buildImportBlocks] at h
    cases hio : importRowsOps (lookupColumns s t) (keyPaths t) t ImportMode.upsert g
        (((dataMap.find? (fun p => p.1 == t)).map Prod.snd).getD []) with
    | mk ops q =>
      rcases q with ⟨g1, err1⟩
      rw [hio] at h
      cases err1 with
      | some e =>
        dsimp only at h
        have hblocks : blocks = [] := (congrArg Prod.fst h).symm
        rw [hblocks] at hb
        cases hb
      | none =>
        dsimp only at h
        cases hbb : buildImportBlocks s keyPaths ImportMode.upsert dataMap g1 ts2 with
        | mk rest q2 =>
          rcases q2 with ⟨g3, err3⟩
          rw [hbb] at h
          dsimp only at h
          have hblocks := (congrArg Prod.fst h).symm
          dsimp only at hblocks
          rw [hblocks] at hb
          rcases List.mem_cons.mp hb with heq | hmem
          · subst heq
            rcases importRowsOps_upsert_puts (lookupColumns s t) (keyPaths t) t
              (((dataMap.find? (fun p => p.1 == t)).map Prod.snd).getD [])
              g ops g1 none hio with ⟨ps, hps⟩
            refine ⟨ps, ?_⟩
            dsimp only
            rw [show (ImportMode.upsert == ImportMode.replace) = false from rfl]
            simp only [Bool.false_eq_true, if_false, List.nil_append]
            exact hps
          · exact ih g1 rest g3 err3 hbb b hmem

theorem buildImportBlocks_names (s : Schema) (keyPaths : String → Option String)
    (mode : ImportMode) (dataMap : List (String × List RecordV)) :
    ∀ (ts : List String) (g : Nat) (blocks : List (String × List StoreOp)) (g2 : Nat),
    buildImportBlocks s keyPaths mode dataMap g ts = (blocks, g2, none) →
    blocks.map (fun b => b.1) = ts := by
  intro ts
  induction ts with
  | nil =>
    intro g blocks g2 h
    have hblocks : blocks = [] := (congrArg Prod.fst h).symm
    rw [hblocks]
    rfl
  | cons t ts2 ih =>
    intro g blocks g2 h
    rw [buildImportBlocks] at h
    cases hio : importRowsOps (lookupColumns s t) (keyPaths t) t mode g
        (((dataMap.find? (fun p => p.1 == t)).map Prod.snd).getD []) with
    | mk ops q =>
      rcases q with ⟨g1, err1⟩
      rw [hio] at h
      cases err1 with
      | some e =>
        dsimp only at h
        have herr := congrArg (fun x => x.2.2) h
        dsimp only at herr
        cases herr
      | none =>
        dsimp only at h
        cases hbb : buildImportBlocks s keyPaths mode dataMap g1 ts2 with
        | mk rest q2 =>
          rcases q2 with ⟨g3, err3⟩
          rw [hbb] at h
          dsimp only at h
          have hblocks := (congrArg Prod.fst h).symm
          have herr3 := congrArg (fun x => x.2.2) h
          dsimp only at hblocks herr3
          rw [hblocks, List.map_cons]
          rw [ih g1 rest g3 (by rw [hbb, ← herr3])]

theorem importTables_names : ∀ (blocks : List (String × List StoreOp)) (db db2 : Database),
    importTables db blocks = .ok db2 →
    db2.map (fun p => p.1) = db.map (fun p => p.1) := by
  intro blocks
  induction blocks with
  | nil =>
    intro db db2 h
    have h2 := Except.ok.inj h
    subst h2
    rfl
  | cons b rest ih =>
    intro db db2 h
    rcases b with ⟨t, ops⟩
    simp only [importTables] at h
    cases hl : lookupStore db t with
    | none => rw [hl] at h; exact Except.noConfusion h
    | some st =>
      rw [hl] at h
      dsimp only at h
      cases ha : applyOps st ops with
      | error e => rw [ha] at h; exact Except.noConfusion h
      | ok st1 =>
        rw [ha] at h
        dsimp only at h
        rw [ih _ _ h, updateStore_map_fst]

theorem importTables_frame : ∀ (blocks : List (String × List StoreOp)) (db db2 : Database),
    importTables db blocks = .ok db2 →
    ∀ t2, ¬ (t2 ∈ blocks.map (fun b => b.1)) →
    lookupStore db2 t2 = lookupStore db t2 := by
  intro blocks
  induction blocks with
  | nil =>
    intro db db2 h t2 _
    have h2 := Except.ok.inj h
    subst h2
    rfl
  | cons b rest ih =>
    intro db db2 h t2 hne
    rcases b with ⟨t, ops⟩
    simp only [importTables] at h
    cases hl : lookupStore db t with
    | none => rw [hl] at h; exact Except.noConfusion h
    | some st =>
      rw [hl] at h
      dsimp only at h
      cases ha : applyOps st ops with
      | error e => rw [ha] at h; exact Except.noConfusion h
      | ok st1 =>
        rw [ha] at h
        dsimp only at h
        have hne2 : ¬ t2 ∈ rest.map (fun b => b.1) := by
          intro hm
          exact hne (by rw [List.map_cons]; exact List.mem_cons_of_mem _ hm)
        have hnet : ¬ t2 = t := by
          intro heq
          apply hne
          rw [List.map_cons, heq]
          exact List.mem_cons_self _ _
        rw [ih (updateStore db t st1) db2 h t2 hne2]
        exact lookupStore_updateStore_other t t2 st1 hnet db

theorem importTables_replay : ∀ (blocks : List (String × List StoreOp)) (db db1 : Database),
    allDistinct (blocks.map (fun b => b.1)) = true →
    (∀ b ∈ blocks, ∃ ps : List RecordV, b.2 = ps.map StoreOp.putOp) →
    blocksWellKeyed db blocks = true →
    wellKeyedDB db = true →
    db.all (fun p => p.2.indexes.all (fun ix => !ix.unique)) = true →
    allDistinct (db.map (fun p => p.1)) = true →
    importTables db blocks = .ok db1 →
    importTables db1 blocks = .ok db1 := by
  intro blocks
  induction blocks with
  | nil =>
    intro db db1 _ _ _ _ _ _ h
    have h2 := Except.ok.inj h
    subst h2
    rfl
  | cons b rest ih =>
    intro db db1 hdist hputs hkeyed hwk hnu hnames h
    rcases b with ⟨t, ops⟩
    rcases hputs (t, ops) (List.mem_cons_self _ _) with ⟨ps, hps⟩
    dsimp only at hps
    unfold blocksWellKeyed at hkeyed
    simp only [importTables] at h ⊢
    cases hl : lookupStore db t with
    | none => rw [hl] at h; exact Except.noConfusion h
    | some st =>
      rw [hl] at h
      dsimp only at h
      cases ha : applyOps st ops with
      | error e => rw [ha] at h; exact Except.noConfusion h
      | ok st1 =>
        rw [ha] at h
        dsimp only at h
        have hb0 := List.all_eq_true.mp hkeyed (t, ops) (List.mem_cons_self _ _)
        dsimp only at hb0
        rw [hl] at hb0
        dsimp only at hb0
        have hkey1 : ∀ r ∈ ps, (recordKey st.keyPath r).isSome = true := by
          intro r hr
          have h2 := List.all_eq_true.mp hb0 (StoreOp.putOp r)
            (by rw [hps]; exact List.mem_map.mpr ⟨r, hr, rfl⟩)
          simpa [opRecord] using h2
        have hwst : wellKeyedStore st = true := wellKeyed_of_lookup hwk hl
        have hnust : st.indexes.all (fun ix => !ix.unique) = true := noUnique_of_lookup hnu hl
        have hw := hwst
        unfold wellKeyedStore at hw
        rw [Bool.and_eq_true] at hw
        obtain ⟨hw1, hw2⟩ := hw
        have hd : (rowsKeys st.keyPath st.rows).Nodup := (allDistinct_iff_nodup _).mp hw2
        have hst1 : st1 = { st with
            autoIncNext := bumpFold st.autoIncrement st.autoIncNext
              (ps.map (recordKey st.keyPath)),
            rows := putFoldRows st.keyPath st.rows ps } := by
          have ha2 := ha
          rw [hps, applyOps_puts_char ps st hnust hkey1] at ha2
          exact (Except.ok.inj ha2).symm
        have hwst1 : wellKeyedStore st1 = true := by
          rw [hst1]
          unfold wellKeyedStore
          dsimp only
          rw [Bool.and_eq_true]
          refine ⟨?_, ?_⟩
          · rw [List.all_eq_true]
            intro r hr
            exact keysSome_putFoldRows st.keyPath ps st.rows
              (fun row hrow => List.all_eq_true.mp hw1 row hrow) hkey1 r hr
          · rw [allDistinct_iff_nodup]
            exact nodup_rowsKeys_putFoldRows st.keyPath ps st.rows hd
        have hnust1 : st1.indexes.all (fun ix => !ix.unique) = true := by
          rw [hst1]
          exact hnust
        have hreplay : applyOps st1 (ps.map StoreOp.putOp) = .ok st1 := by
          apply applyOps_puts_replay st st1 ps hnust hkey1 hd
          rw [← hps]
          exact ha
        have hdistE := hdist
        rw [List.map_cons] at hdistE
        unfold allDistinct at hdistE
        rw [Bool.and_eq_true, Bool.not_eq_true'] at hdistE
        obtain ⟨hnotin, hdist_rest⟩ := hdistE
        dsimp only at hnotin
        have hnotmem : ¬ t ∈ rest.map (fun b => b.1) := by
          intro hm
          have hcont : (rest.map (fun b => b.1)).contains t = true := List.elem_iff.mpr hm
          rw [hnotin] at hcont
          cases hcont
        have hmidwk : wellKeyedDB (updateStore db t st1) = true :=
          wellKeyedDB_updateStore db t st1 hwk hwst1
        have hmidnu := noUnique_updateStore db t st1 hnu hnust1
        have hmidnames : allDistinct ((updateStore db t st1).map (fun p => p.1)) = true := by
          rw [updateStore_map_fst]
          exact hnames
        have hmidkeyed : blocksWellKeyed (updateStore db t st1) rest = true := by
          unfold blocksWellKeyed
          rw [List.all_eq_true]
          intro b2 hb2
          have hb20 := List.all_eq_true.mp hkeyed b2 (List.mem_cons_of_mem _ hb2)
          have hne : ¬ b2.1 = t := by
            intro heq
            apply hnotmem
            rw [← heq]
            exact List.mem_map.mpr ⟨b2, hb2, rfl⟩
          rw [lookupStore_updateStore_other t b2.1 st1 hne db]
          exact hb20
        have hlk1 : lookupStore db1 t = some st1 := by
          rw [importTables_frame rest (updateStore db t st1) db1 h t hnotmem]
          exact lookupStore_updateStore_self t st1 db st hl
        have hnames1 : allDistinct (db1.map (fun p => p.1)) = true := by
          rw [importTables_names rest (updateStore db t st1) db1 h, updateStore_map_fst]
          exact hnames
        rw [hlk1]
        dsimp only
        rw [hps, hreplay]
        dsimp only
        rw [updateStore_self_id t db1 st1 hnames1 hlk1]
        exact ih (updateStore db t st1) db1 hdist_rest
          (fun b2 hb2 => hputs b2 (List.mem_cons_of_mem _ hb2))
          hmidkeyed hmidwk hmidnu hmidnames h

/-- C8: importing the same snapshot twice in upsert mode is idempotent — as
corrected: provided every imported row supplies its auto-generated
(uuid/timestamp) columns and its in-line primary key, as export-produced
snapshots do, and no unique secondary index is declared.  If the first
`Locality.import` call in upsert mode succeeds, producing database state
`db1` and fresh-value counter `g1`, then running the identical import again
from `db1` succeeds and leaves every table's contents (and the counter)
unchanged: upsert `put`s overwrite the keys written by the first import
instead of failing or duplicating. -/
theorem c8_upsert_import_idempotent
    (s : Schema) (keyPaths : String → Option String)
    (dataMap : List (String × List RecordV)) (tables : Option (List String))
    (db db1 : Database) (g g1 : Nat)
    (hnames : allDistinct (db.map (fun p => p.1)) = true)
    (hwk : wellKeyedDB db = true)
    (hnu : db.all (fun p => p.2.indexes.all (fun ix => !ix.unique)) = true)
    (hT : allDistinct (tables.getD (dataMap.map (fun p => p.1))) = true)
    (hauto : snapshotProvidesAutoFields s dataMap
      (tables.getD (dataMap.map (fun p => p.1))) = true)
    (hkeyed : blocksWellKeyed db
      (buildImportBlocks s keyPaths ImportMode.upsert dataMap g
        (tables.getD (dataMap.map (fun p => p.1)))).1 = true)
    (h1 : importRun s keyPaths dataMap ImportMode.upsert tables db g = (.ok (), db1, g1)) :
    importRun s keyPaths dataMap ImportMode.upsert tables db1 g1 = (.ok (), db1, g1) := by
  unfold importRun at h1 ⊢
  dsimp only at h1 ⊢
  cases hfind : (tables.getD (dataMap.map (fun p => p.1))).find?
      (fun t => !(s.any (fun p => p.1 == t))) with
  | some t =>
    rw [hfind] at h1
    dsimp only at h1
    have hcon := congrArg (fun x => x.1) h1
    dsimp only at hcon
    exact Except.noConfusion hcon
  | none =>
    rw [hfind] at h1
    dsimp only at h1 ⊢
    by_cases hemp : (tables.getD (dataMap.map (fun p => p.1))).isEmpty = true
    · rw [if_pos hemp] at h1 ⊢
    · rw [if_neg hemp] at h1 ⊢
      cases hbb : buildImportBlocks s keyPaths ImportMode.upsert dataMap g
          (tables.getD (dataMap.map (fun p => p.1))) with
      | mk blocks q =>
        rcases q with ⟨gB, errB⟩
        rw [hbb] at h1
        cases errB with
        | some e =>
          dsimp only at h1
          have hcon := congrArg (fun x => x.1) h1
          dsimp only at hcon
          exact Except.noConfusion hcon
        | none =>
          dsimp only at h1
          cases hit : importTables db blocks with
          | error e =>
            rw [hit] at h1
            dsimp only at h1
            have hcon := congrArg (fun x => x.1) h1
            dsimp only at hcon
            exact Except.noConfusion hcon
          | ok dbX =>
            rw [hit] at h1
            dsimp only at h1
            have hdb := congrArg (fun x => x.2.1) h1
            have hg := congrArg (fun x => x.2.2) h1
            dsimp only at hdb hg
            subst hdb
            subst hg
            have hgf := buildImportBlocks_gen_free s keyPaths ImportMode.upsert dataMap
              (tables.getD (dataMap.map (fun p => p.1))) hauto gB g
            rw [hbb] at hgf
            dsimp only at hgf
            rw [hgf]
            dsimp only
            have hkeyed2 := hkeyed
            rw [hbb] at hkeyed2
            dsimp only at hkeyed2
            have hdistB : allDistinct (blocks.map (fun b => b.1)) = true := by
              rw [buildImportBlocks_names s keyPaths ImportMode.upsert dataMap
                (tables.getD (dataMap.map (fun p => p.1))) g blocks gB hbb]
              exact hT
            have hreplay := importTables_replay blocks db dbX hdistB
              (buildImportBlocks_upsert_puts s keyPaths dataMap
                (tables.getD (dataMap.map (fun p => p.1))) g blocks gB none hbb)
              hkeyed2 hwk hnu hnames hit
            rw [hreplay]

theorem c8_upsert_import_idempotent_witness :
    importRun [("users", [("id", { type := TypeName.int, isPrimaryKey := true })])]
      (fun t => if t == "users" then some "id" else none)
      [("users", [[("id", Value.vInt 1)]])] ImportMode.upsert none
      [("users", { keyPath := "id", rows := [[("id", Value.vInt 1)]] })] 0 =
      (.ok (), [("users", { keyPath := "id", rows := [[("id", Value.vInt 1)]] })], 0) :=
  c8_upsert_import_idempotent
    [("users", [("id", { type := TypeName.int, isPrimaryKey := true })])]
    (fun t => if t == "users" then some "id" else none)
    [("users", [[("id", Value.vInt 1)]])] none
    [("users", { keyPath := "id" })]
    [("users", { keyPath := "id", rows := [[("id", Value.vInt 1)]] })] 0 0
    (by decide) (by decide) (by decide) (by decide) (by decide) (by decide) (by rfl)
